import Mathlib

/-!
Verification of the NavMeshGenerator library (TypeScript sources) against its
natural-language specification.

Every definition in this file is a shallow embedding of a function of the
repository, translated from the TypeScript source:
- `RasterizationCell.ts`, `RasterizationGrid.ts` (grid and cells),
- `ObstacleRasterizer.ts` (scan-line rasterization, exact rational arithmetic
  standing for JS doubles; all comparisons performed by the source on the
  involved values are exact in ℚ),
- `ContourBuilder.ts` (edge walk, contour simplification seeding, duplicate
  removal),
- `ConvexPolygonGenerator.ts` (ear clipping and greedy merging, exact integer
  and rational arithmetic),
- `GridCoordinateConverter.ts` and `NavMeshGenerator.ts` (final conversion and
  isometric scaling, modelled with an explicit allocation of one fresh point
  per output position, mirroring the per-point record literal in the source).

JS `Math.round` is `fun q => ⌊q + 1/2⌋` (round half toward +∞), `Math.floor`
and `Math.ceil` are `Int.floor` / `Int.ceil`, and `Number.MAX_VALUE` is the
exact integer value of the largest double, `2 ^ 1024 - 2 ^ 971`.
-/

set_option maxRecDepth 8192

/-- Exact integer value of the JS constant `Number.MAX_VALUE`,
that is `2 ^ 1024 - 2 ^ 971`, written as a decimal literal so that the kernel
can compare it without unfolding `Nat.pow`. -/
def NUMBER_MAX_VALUE : ℕ := 179769313486231570814527423731704356798070567525844996598917476803157260780028538760589558632766878171540458953514382464234321326889464182768467546703537516986049910576551282076245490090389328944075868508455133942304583236903222948165808559332123348274797826204144723168738177180919299881250404026184124858368

/-- Sanity check: the literal above is exactly `2 ^ 1024 - 2 ^ 971`. -/
theorem NUMBER_MAX_VALUE_eq : NUMBER_MAX_VALUE = 2 ^ 1024 - 2 ^ 971 := by
  norm_num [NUMBER_MAX_VALUE]

/-- JS `Math.round`: round half toward positive infinity. -/
def jsRound (q : ℚ) : ℤ := ⌊q + 1 / 2⌋

/-- A point with rational coordinates (JS `{x, y}` object). -/
structure GridPoint where
  x : ℚ
  y : ℚ
deriving Repr, DecidableEq

/-- `RasterizationCell` (RasterizationCell.ts): coordinates plus the four
mutable fields used by the pipeline. -/
structure RasterizationCell where
  x : ℤ
  y : ℤ
  distanceToObstacle : ℕ
  regionID : ℕ
  distanceToRegionCore : ℕ
  contourFlags : ℕ
deriving Repr, DecidableEq

instance : Inhabited RasterizationCell :=
  ⟨⟨0, 0, 0, 0, 0, 0⟩⟩

/-- `RasterizationCell.clear` (RasterizationCell.ts lines 50-55):
`distanceToObstacle = Number.MAX_VALUE`, the other mutable fields `0`,
`x` and `y` untouched. -/
def RasterizationCell.clear (c : RasterizationCell) : RasterizationCell :=
  { c with
    distanceToObstacle := NUMBER_MAX_VALUE
    regionID := 0
    distanceToRegionCore := 0
    contourFlags := 0 }

/-- `RasterizationGrid` (RasterizationGrid.ts): origin, cell sizes, the cell
matrix (row major: outer list indexed by `y`) and `regionCount`. -/
structure RasterizationGrid where
  originX : ℚ
  originY : ℚ
  cellWidth : ℚ
  cellHeight : ℚ
  cells : List (List RasterizationCell)
  regionCount : ℕ
deriving Repr, DecidableEq

/-- `RasterizationGrid.get` as an `Option`-returning lookup
(`this.cells[y][x]`). -/
def RasterizationGrid.get (g : RasterizationGrid) (x y : ℕ) :
    Option RasterizationCell :=
  g.cells[y]?.bind fun row => row[x]?

/-- `RasterizationGrid.clear` (RasterizationGrid.ts lines 55-62): clear every
cell and reset `regionCount`. -/
def RasterizationGrid.clear (g : RasterizationGrid) : RasterizationGrid :=
  { g with
    cells := g.cells.map fun row => row.map RasterizationCell.clear
    regionCount := 0 }

/-- A concrete grid used to exhibit counterexamples: a single cell whose
mutable fields are all nonzero. -/
def sampleGrid : RasterizationGrid :=
  { originX := 0
    originY := 0
    cellWidth := 1
    cellHeight := 1
    cells := [[⟨0, 0, 5, 3, 2, 9⟩]]
    regionCount := 4 }

/-- C8, counterexample. The claim states that after `clear()` every cell has
`distanceToObstacle = 0`. On the concrete grid `sampleGrid`, after `clear()`
the unique cell has `distanceToObstacle = Number.MAX_VALUE ≠ 0`: `clear` sets
the field to `Number.MAX_VALUE` (the "no obstacle yet" sentinel), not to 0. -/
theorem c8_clear_counterexample :
    ((sampleGrid.clear.get 0 0).map
        (fun c => c.distanceToObstacle)) ≠ some 0 := by
  have hv : ((sampleGrid.clear.get 0 0).map
      (fun c => c.distanceToObstacle)) = some NUMBER_MAX_VALUE := rfl
  rw [hv]
  intro h
  have h0 : NUMBER_MAX_VALUE = 0 := Option.some.inj h
  rw [NUMBER_MAX_VALUE] at h0
  exact absurd h0 (by norm_num)

/-- C8, amended. After `RasterizationGrid.clear`, `regionCount = 0` and every
cell has `distanceToObstacle = Number.MAX_VALUE` (not 0), `regionID = 0`,
`distanceToRegionCore = 0`, `contourFlags = 0`, while `x` and `y` are
unchanged. -/
theorem c8_clear_amended (g : RasterizationGrid) (x y : ℕ) :
    g.clear.regionCount = 0 ∧
      (g.clear.get x y).map
          (fun c => (c.distanceToObstacle, c.regionID, c.distanceToRegionCore,
            c.contourFlags)) =
        (g.get x y).map (fun _ => (NUMBER_MAX_VALUE, 0, 0, 0)) ∧
      (g.clear.get x y).map (fun c => (c.x, c.y)) =
        (g.get x y).map (fun c => (c.x, c.y)) := by
  refine ⟨rfl, ?_, ?_⟩ <;>
    · show (((g.cells.map fun row => row.map RasterizationCell.clear)[y]?).bind
          fun row => row[x]?).map _ = (g.cells[y]?.bind fun row => row[x]?).map _
      rw [List.getElem?_map]
      cases hy : g.cells[y]? with
      | none => rfl
      | some row =>
        show ((row.map RasterizationCell.clear)[x]?).map _ = (row[x]?).map _
        rw [List.getElem?_map]
        cases hx : row[x]? with
        | none => rfl
        | some c => rfl

/-- `ContourPoint` (ContourPoint.ts): integer coordinates plus the
`region` field (also used to store a source index during simplification). -/
structure ContourPoint where
  x : ℤ
  y : ℤ
  region : ℤ
deriving Repr, DecidableEq

instance : Inhabited ContourPoint :=
  ⟨⟨0, 0, 0⟩⟩

/-- Accumulator of the island-seeding loop of `generateSimplifiedContour`
(ContourBuilder.ts lines 617-638): running lower-left and upper-right
vertices with their indices. -/
structure IslandSeedAcc where
  lowerLeftX : ℤ
  lowerLeftY : ℤ
  lowerLeftIndex : ℕ
  upperRightX : ℤ
  upperRightY : ℤ
  upperRightIndex : ℕ
deriving Repr, DecidableEq

/-- Lower-left half of one iteration of the island-seeding loop
(ContourBuilder.ts lines 628-632): `if (x < llX || (x === llX && y < llY))`
updates the lower left. -/
def islandSeedStepLL (acc : IslandSeedAcc) (index : ℕ) (v : ContourPoint) :
    IslandSeedAcc :=
  if v.x < acc.lowerLeftX ∨ (v.x = acc.lowerLeftX ∧ v.y < acc.lowerLeftY)
  then { acc with lowerLeftX := v.x, lowerLeftY := v.y,
                  lowerLeftIndex := index }
  else acc

/-- Upper-right half of one iteration of the island-seeding loop
(ContourBuilder.ts lines 633-637): `if (x >= urX || (x === urX && y > urY))`
updates the upper right. -/
def islandSeedStepUR (acc : IslandSeedAcc) (index : ℕ) (v : ContourPoint) :
    IslandSeedAcc :=
  if v.x ≥ acc.upperRightX ∨ (v.x = acc.upperRightX ∧ v.y > acc.upperRightY)
  then { acc with upperRightX := v.x, upperRightY := v.y,
                  upperRightIndex := index }
  else acc

/-- One iteration of the island-seeding loop (ContourBuilder.ts lines
623-638): both conditional updates in source order (the second condition only
reads the upper-right fields, which the first update leaves untouched). -/
def islandSeedStep (acc : IslandSeedAcc) (index : ℕ) (v : ContourPoint) :
    IslandSeedAcc :=
  islandSeedStepUR (islandSeedStepLL acc index v) index v

/-- The island-seeding loop, processing the vertices in order while carrying
the running index (the source iterates `index` from 0 over
`sourceVertices`). -/
def islandSeedGo : List ContourPoint → ℕ → IslandSeedAcc → IslandSeedAcc
  | [], _, acc => acc
  | v :: rest, i, acc => islandSeedGo rest (i + 1) (islandSeedStep acc i v)

/-- The whole island-seeding computation: the accumulator starts from
`sourceVertices[0]` with index 0, then the loop runs over all vertices
(including index 0 again, as in the source). -/
def islandSeed (l : List ContourPoint) : IslandSeedAcc :=
  let v0 := l.headD default
  islandSeedGo l 0 ⟨v0.x, v0.y, 0, v0.x, v0.y, 0⟩

/-- The seeding phase of `generateSimplifiedContour` (ContourBuilder.ts lines
603-675): if no source vertex touches a non-obstacle region, seed with the
computed lower-left and upper-right vertices (their `region` field receiving
the source index); otherwise seed with every vertex whose region differs from
the next vertex's region. -/
def generateSimplifiedContourSeeds (l : List ContourPoint) :
    List ContourPoint :=
  if l.all fun v => v.region = 0 then
    let a := islandSeed l
    [⟨a.lowerLeftX, a.lowerLeftY, (a.lowerLeftIndex : ℤ)⟩,
      ⟨a.upperRightX, a.upperRightY, (a.upperRightIndex : ℤ)⟩]
  else
    (List.range l.length).filterMap fun index =>
      let v := l.getD index default
      if v.region ≠ (l.getD ((index + 1) % l.length) default).region
      then some ⟨v.x, v.y, (index : ℤ)⟩
      else none

/-- Lexicographic order on coordinate pairs (x first, then y), the order the
claim uses for "lexicographically smallest/largest". -/
def lexLe (a b : ℤ × ℤ) : Prop :=
  a.1 < b.1 ∨ (a.1 = b.1 ∧ a.2 ≤ b.2)

instance (a b : ℤ × ℤ) : Decidable (lexLe a b) := by
  unfold lexLe
  infer_instance

/-- A contour whose vertices all have `region = 0` (an island contour). -/
def islandExample : List ContourPoint :=
  [⟨0, 0, 0⟩, ⟨2, 5, 0⟩, ⟨2, 1, 0⟩]

/-- C6, counterexample. On the island contour `[(0,0), (2,5), (2,1)]`
(non-empty, all regions 0, so the claim applies), the seeded pair is
`[(0,0), (2,1)]`: the second seed is the *last* vertex of maximal x, not the
lexicographically largest vertex `(2,5)`, because the source uses
`x >= upperRightX` (not a strict lexicographic comparison), so every later
vertex tying on the maximal x overwrites the upper-right choice. -/
theorem c6_seed_counterexample :
    islandExample ≠ [] ∧
      (islandExample.all fun v => v.region = 0) = true ∧
      (generateSimplifiedContourSeeds islandExample).map
          (fun v => (v.x, v.y)) = [(0, 0), (2, 1)] ∧
      lexLe (2, 1) (2, 5) ∧ ((2, 1) : ℤ × ℤ) ≠ (2, 5) := by
  refine ⟨by decide, by decide, by decide, by decide, by decide⟩

/-- Invariant of the running lower-left seed over the processed prefix
`seen`: its coordinates occur in `seen` and are lexicographically least. -/
def LlInv (seen : List ContourPoint) (acc : IslandSeedAcc) : Prop :=
  (acc.lowerLeftX, acc.lowerLeftY) ∈ seen.map (fun v => (v.x, v.y)) ∧
    ∀ v ∈ seen, lexLe (acc.lowerLeftX, acc.lowerLeftY) (v.x, v.y)

/-- Invariant of the running upper-right seed over the processed prefix
`seen`: its index points at a vertex of `seen` with the recorded coordinates,
every vertex of `seen` has `x ≤ upperRightX`, and every vertex strictly after
the recorded index has a strictly smaller `x` (so the index is the last one
attaining the maximal `x`). -/
def UrInv (seen : List ContourPoint) (acc : IslandSeedAcc) : Prop :=
  ∃ hk : acc.upperRightIndex < seen.length,
    (seen.get ⟨acc.upperRightIndex, hk⟩).x = acc.upperRightX ∧
      (seen.get ⟨acc.upperRightIndex, hk⟩).y = acc.upperRightY ∧
      (∀ v ∈ seen, v.x ≤ acc.upperRightX) ∧
      ∀ m, ∀ hm : m < seen.length,
        acc.upperRightIndex < m → (seen.get ⟨m, hm⟩).x < acc.upperRightX

theorem islandSeedStepLL_urFields (acc : IslandSeedAcc) (i : ℕ)
    (v : ContourPoint) :
    (islandSeedStepLL acc i v).upperRightX = acc.upperRightX ∧
      (islandSeedStepLL acc i v).upperRightY = acc.upperRightY ∧
      (islandSeedStepLL acc i v).upperRightIndex = acc.upperRightIndex := by
  unfold islandSeedStepLL
  split <;> simp

theorem islandSeedStepUR_llFields (acc : IslandSeedAcc) (i : ℕ)
    (v : ContourPoint) :
    (islandSeedStepUR acc i v).lowerLeftX = acc.lowerLeftX ∧
      (islandSeedStepUR acc i v).lowerLeftY = acc.lowerLeftY ∧
      (islandSeedStepUR acc i v).lowerLeftIndex = acc.lowerLeftIndex := by
  unfold islandSeedStepUR
  split <;> simp

theorem LlInv_congr (seen : List ContourPoint) (a b : IslandSeedAcc)
    (hx : b.lowerLeftX = a.lowerLeftX) (hy : b.lowerLeftY = a.lowerLeftY)
    (h : LlInv seen a) : LlInv seen b := by
  unfold LlInv at h ⊢
  rw [hx, hy]
  exact h

theorem UrInv_congr (seen : List ContourPoint) (a b : IslandSeedAcc)
    (hx : b.upperRightX = a.upperRightX) (hy : b.upperRightY = a.upperRightY)
    (hi : b.upperRightIndex = a.upperRightIndex) (h : UrInv seen a) :
    UrInv seen b := by
  unfold UrInv at h ⊢
  rw [hx, hy, hi]
  exact h

theorem islandSeedStepLL_inv (seen : List ContourPoint) (acc : IslandSeedAcc)
    (v : ContourPoint) (hll : LlInv seen acc) :
    LlInv (seen ++ [v]) (islandSeedStepLL acc seen.length v) := by
  obtain ⟨hmem, hleast⟩ := hll
  unfold islandSeedStepLL
  by_cases h1 :
      v.x < acc.lowerLeftX ∨ (v.x = acc.lowerLeftX ∧ v.y < acc.lowerLeftY)
  · rw [if_pos h1]
    refine ⟨by simp, ?_⟩
    intro w hw
    rcases List.mem_append.mp hw with hw | hw
    · have h2 := hleast w hw
      unfold lexLe at h2 ⊢
      dsimp only at h2 ⊢
      rcases h1 with h1 | h1 <;> [left; skip] <;> omega
    · simp only [List.mem_singleton] at hw
      subst hw
      unfold lexLe
      dsimp only
      omega
  · rw [if_neg h1]
    push_neg at h1
    refine ⟨?_, ?_⟩
    · rw [List.map_append]
      exact List.mem_append.mpr (Or.inl hmem)
    · intro w hw
      rcases List.mem_append.mp hw with hw | hw
      · exact hleast w hw
      · simp only [List.mem_singleton] at hw
        subst hw
        unfold lexLe
        omega

theorem islandSeedStepUR_inv (seen : List ContourPoint) (acc : IslandSeedAcc)
    (v : ContourPoint) (hur : UrInv seen acc) :
    UrInv (seen ++ [v]) (islandSeedStepUR acc seen.length v) := by
  obtain ⟨hk, hkx, hky, hbound, hlast⟩ := hur
  unfold islandSeedStepUR
  by_cases h2 :
      v.x ≥ acc.upperRightX ∨ (v.x = acc.upperRightX ∧ v.y > acc.upperRightY)
  · rw [if_pos h2]
    have hvx : acc.upperRightX ≤ v.x := by
      rcases h2 with h2 | h2 <;> omega
    refine ⟨by simp, ?_, ?_, ?_, ?_⟩
    · simp only [List.get_eq_getElem]
      rw [List.getElem_concat_length seen v _ rfl]
    · simp only [List.get_eq_getElem]
      rw [List.getElem_concat_length seen v _ rfl]
    · intro w hw
      dsimp only
      rcases List.mem_append.mp hw with hw | hw
      · exact le_trans (hbound w hw) hvx
      · simp only [List.mem_singleton] at hw
        subst hw
        exact le_refl _
    · intro m hm hgt
      dsimp only at hgt
      simp only [List.length_append, List.length_singleton] at hm
      omega
  · rw [if_neg h2]
    push_neg at h2
    have hvlt : v.x < acc.upperRightX := h2.1
    have hk2 : acc.upperRightIndex < (seen ++ [v]).length := by
      simp only [List.length_append, List.length_singleton]
      omega
    refine ⟨hk2, ?_, ?_, ?_, ?_⟩
    · simp only [List.get_eq_getElem]
      rw [List.getElem_append_left hk]
      simpa [List.get_eq_getElem] using hkx
    · simp only [List.get_eq_getElem]
      rw [List.getElem_append_left hk]
      simpa [List.get_eq_getElem] using hky
    · intro w hw
      rcases List.mem_append.mp hw with hw | hw
      · exact hbound w hw
      · simp only [List.mem_singleton] at hw
        subst hw
        omega
    · intro m hm hgt
      simp only [List.length_append, List.length_singleton] at hm
      by_cases hmlt : m < seen.length
      · simp only [List.get_eq_getElem]
        rw [List.getElem_append_left hmlt]
        simpa [List.get_eq_getElem] using hlast m hmlt hgt
      · have hmv : m = seen.length := by omega
        subst hmv
        simp only [List.get_eq_getElem]
        rw [List.getElem_concat_length seen v _ rfl]
        exact hvlt

theorem islandSeedStep_inv (seen : List ContourPoint) (acc : IslandSeedAcc)
    (v : ContourPoint) (hll : LlInv seen acc) (hur : UrInv seen acc) :
    LlInv (seen ++ [v]) (islandSeedStep acc seen.length v) ∧
      UrInv (seen ++ [v]) (islandSeedStep acc seen.length v) := by
  have hLL := islandSeedStepLL_inv seen acc v hll
  have hUR0 := islandSeedStepLL_urFields acc seen.length v
  have hUR1 : UrInv seen (islandSeedStepLL acc seen.length v) :=
    UrInv_congr seen acc _ hUR0.1 hUR0.2.1 hUR0.2.2 hur
  have hUR := islandSeedStepUR_inv seen _ v hUR1
  have hLL0 := islandSeedStepUR_llFields (islandSeedStepLL acc seen.length v)
    seen.length v
  exact ⟨LlInv_congr _ _ _ hLL0.1 hLL0.2.1 hLL, hUR⟩

theorem islandSeedGo_inv (rest : List ContourPoint) :
    ∀ (seen : List ContourPoint) (acc : IslandSeedAcc),
      LlInv seen acc → UrInv seen acc →
      LlInv (seen ++ rest) (islandSeedGo rest seen.length acc) ∧
        UrInv (seen ++ rest) (islandSeedGo rest seen.length acc) := by
  induction rest with
  | nil =>
    intro seen acc h1 h2
    simpa [islandSeedGo] using ⟨h1, h2⟩
  | cons v rest ih =>
    intro seen acc h1 h2
    obtain ⟨h1s, h2s⟩ := islandSeedStep_inv seen acc v h1 h2
    have := ih (seen ++ [v]) (islandSeedStep acc seen.length v) h1s h2s
    simp only [List.length_append, List.length_singleton,
      List.append_assoc, List.singleton_append] at this
    simpa [islandSeedGo] using this

theorem islandSeed_inv (l : List ContourPoint) (hne : l ≠ []) :
    LlInv l (islandSeed l) ∧ UrInv l (islandSeed l) := by
  obtain ⟨v0, tail, rfl⟩ := List.exists_cons_of_ne_nil hne
  show LlInv (v0 :: tail) (islandSeedGo (v0 :: tail) 0
      ⟨v0.x, v0.y, 0, v0.x, v0.y, 0⟩) ∧
    UrInv (v0 :: tail) (islandSeedGo (v0 :: tail) 0
      ⟨v0.x, v0.y, 0, v0.x, v0.y, 0⟩)
  have hstep : islandSeedGo (v0 :: tail) 0 ⟨v0.x, v0.y, 0, v0.x, v0.y, 0⟩ =
      islandSeedGo tail 1
        (islandSeedStep ⟨v0.x, v0.y, 0, v0.x, v0.y, 0⟩ 0 v0) := rfl
  have hinit : islandSeedStep ⟨v0.x, v0.y, 0, v0.x, v0.y, 0⟩ 0 v0 =
      ⟨v0.x, v0.y, 0, v0.x, v0.y, 0⟩ := by
    unfold islandSeedStep islandSeedStepLL islandSeedStepUR
    dsimp only
    have hc1 : ¬ (v0.x < v0.x ∨ (v0.x = v0.x ∧ v0.y < v0.y)) := by omega
    rw [if_neg hc1]
    dsimp only
    have hc2 : v0.x ≥ v0.x ∨ (v0.x = v0.x ∧ v0.y > v0.y) := by omega
    rw [if_pos hc2]
  have h1 : LlInv [v0] (⟨v0.x, v0.y, 0, v0.x, v0.y, 0⟩ : IslandSeedAcc) := by
    refine ⟨by simp, ?_⟩
    intro w hw
    simp only [List.mem_singleton] at hw
    subst hw
    unfold lexLe
    dsimp only
    omega
  have h2 : UrInv [v0] (⟨v0.x, v0.y, 0, v0.x, v0.y, 0⟩ : IslandSeedAcc) := by
    refine ⟨by simp, by simp [List.get_eq_getElem], by simp [List.get_eq_getElem], ?_, ?_⟩
    · intro w hw
      simp only [List.mem_singleton] at hw
      subst hw
      exact le_refl _
    · intro m hm hgt
      simp only [List.length_singleton] at hm
      omega
  have := islandSeedGo_inv tail [v0] ⟨v0.x, v0.y, 0, v0.x, v0.y, 0⟩ h1 h2
  simp only [List.singleton_append, List.length_singleton] at this
  rw [hstep, hinit]
  exact this

/-- C6, amended. For a non-empty raw contour whose vertices all have
`region = 0`, `generateSimplifiedContour` seeds the simplified contour with
exactly two vertices: the lexicographically smallest raw vertex (ordered by x,
then y), and the vertex at the *last* raw index whose `x` equals the maximal
`x` (its `y` need not be maximal: the source updates the upper-right seed on
`x >= upperRightX`, so later vertices tying on the maximal `x` win). -/
theorem c6_seed_amended (l : List ContourPoint) (hne : l ≠ [])
    (hall : (l.all fun v => v.region = 0) = true) :
    ∃ s t, generateSimplifiedContourSeeds l = [s, t] ∧
      (s.x, s.y) ∈ l.map (fun v => (v.x, v.y)) ∧
      (∀ v ∈ l, lexLe (s.x, s.y) (v.x, v.y)) ∧
      ∃ k, ∃ hk : k < l.length,
        (l.get ⟨k, hk⟩).x = t.x ∧ (l.get ⟨k, hk⟩).y = t.y ∧
          (∀ v ∈ l, v.x ≤ t.x) ∧
          ∀ m, ∀ hm : m < l.length, k < m → (l.get ⟨m, hm⟩).x < t.x := by
  obtain ⟨hll, hur⟩ := islandSeed_inv l hne
  obtain ⟨hmem, hleast⟩ := hll
  obtain ⟨hk, hkx, hky, hbound, hlast⟩ := hur
  refine ⟨⟨(islandSeed l).lowerLeftX, (islandSeed l).lowerLeftY,
      ((islandSeed l).lowerLeftIndex : ℤ)⟩,
    ⟨(islandSeed l).upperRightX, (islandSeed l).upperRightY,
      ((islandSeed l).upperRightIndex : ℤ)⟩, ?_, ?_, ?_, ?_⟩
  · unfold generateSimplifiedContourSeeds
    rw [if_pos hall]
  · exact hmem
  · exact hleast
  · exact ⟨(islandSeed l).upperRightIndex, hk, hkx, hky, hbound, hlast⟩

/-- C6, witness for the amended theorem at the concrete island contour
`[(0,0), (2,5), (2,1)]`. -/
theorem c6_seed_amended_witness :
    islandExample ≠ [] ∧
      (islandExample.all fun v => v.region = 0) = true ∧
      (∃ s t, generateSimplifiedContourSeeds islandExample = [s, t] ∧
        (s.x, s.y) ∈ islandExample.map (fun v => (v.x, v.y)) ∧
        (∀ v ∈ islandExample, lexLe (s.x, s.y) (v.x, v.y)) ∧
        ∃ k, ∃ hk : k < islandExample.length,
          (islandExample.get ⟨k, hk⟩).x = t.x ∧
            (islandExample.get ⟨k, hk⟩).y = t.y ∧
            (∀ v ∈ islandExample, v.x ≤ t.x) ∧
            ∀ m, ∀ hm : m < islandExample.length,
              k < m → (islandExample.get ⟨m, hm⟩).x < t.x) :=
  ⟨by decide, by decide,
    c6_seed_amended islandExample (by decide) (by decide)⟩

/-- The crossing condition of `scanY` (ObstacleRasterizer.ts lines 141-144):
`(v_i.y <= cy && cy < v_j.y) || (v_j.y < cy && cy <= v_i.y)` where `v_j` is
the previous vertex. -/
def scanYNodeCond (pixelCenterY : ℚ) (vi vj : GridPoint) : Prop :=
  (vi.y ≤ pixelCenterY ∧ pixelCenterY < vj.y) ∨
    (vj.y < pixelCenterY ∧ pixelCenterY ≤ vi.y)

instance (cy : ℚ) (vi vj : GridPoint) : Decidable (scanYNodeCond cy vi vj) := by
  unfold scanYNodeCond
  infer_instance

/-- The crossing condition of `scanX` (ObstacleRasterizer.ts lines 207-210):
`(v_i.x < cx && cx < v_j.x) || (v_j.x < cx && cx < v_i.x)` - strict on both
sides, unlike `scanY`. -/
def scanXNodeCond (pixelCenterX : ℚ) (vi vj : GridPoint) : Prop :=
  (vi.x < pixelCenterX ∧ pixelCenterX < vj.x) ∨
    (vj.x < pixelCenterX ∧ pixelCenterX < vi.x)

instance (cx : ℚ) (vi vj : GridPoint) : Decidable (scanXNodeCond cx vi vj) := by
  unfold scanXNodeCond
  infer_instance

/-- The transpose of the half-open rule of `scanY`, which the claim says
`scanX` uses: `(v.x ≤ cx < prev.x) ∨ (prev.x < cx ≤ v.x)`. -/
def scanXHalfOpenCond (pixelCenterX : ℚ) (vi vj : GridPoint) : Prop :=
  (vi.x ≤ pixelCenterX ∧ pixelCenterX < vj.x) ∨
    (vj.x < pixelCenterX ∧ pixelCenterX ≤ vi.x)

instance (cx : ℚ) (vi vj : GridPoint) :
    Decidable (scanXHalfOpenCond cx vi vj) := by
  unfold scanXHalfOpenCond
  infer_instance

/-- C3, counterexample. For the edge whose endpoint `v` has `v.x = 1/2` with
previous vertex at `x = 5/2`, and the column center `cx = 1/2` (the endpoint
lies exactly on the column center): the claimed transposed half-open rule
records a crossing, but the code's `scanX` condition is strict on both sides
and records none. -/
theorem c3_scanx_counterexample :
    ¬ scanXNodeCond (1 / 2) ⟨1 / 2, 0⟩ ⟨5 / 2, 0⟩ ∧
      scanXHalfOpenCond (1 / 2) ⟨1 / 2, 0⟩ ⟨5 / 2, 0⟩ := by
  constructor
  · intro h
    rcases h with ⟨h1, _⟩ | ⟨_, h2⟩
    · exact absurd h1 (by norm_num)
    · exact absurd h2 (by norm_num)
  · exact Or.inl ⟨le_refl _, by norm_num⟩

/-- C3, amended. The vertical pass `scanX` records a crossing exactly when
the column center is *strictly* between the two endpoint abscissas;
equivalently, it is the transpose of pass Y's half-open rule restricted to
centers that coincide with neither endpoint, so an edge endpoint lying
exactly on a column center contributes no crossing at all (instead of exactly
one). -/
theorem c3_scanx_amended (cx : ℚ) (vi vj : GridPoint) :
    scanXNodeCond cx vi vj ↔
      scanXHalfOpenCond cx vi vj ∧ cx ≠ vi.x ∧ cx ≠ vj.x := by
  unfold scanXNodeCond scanXHalfOpenCond
  constructor
  · rintro (⟨h1, h2⟩ | ⟨h1, h2⟩)
    · exact ⟨Or.inl ⟨le_of_lt h1, h2⟩, ne_of_gt h1, ne_of_lt h2⟩
    · exact ⟨Or.inr ⟨h1, le_of_lt h2⟩, ne_of_lt h2, ne_of_gt h1⟩
  · rintro ⟨⟨h1, h2⟩ | ⟨h1, h2⟩, hne1, hne2⟩
    · exact Or.inl ⟨lt_of_le_of_ne h1 (Ne.symm hne1), h2⟩
    · exact Or.inr ⟨h1, lt_of_le_of_ne h2 hne1⟩

/-- `RasterizationGrid.neighbor4Deltas` (RasterizationGrid.ts lines 12-17). -/
def neighbor4Deltas : List (ℤ × ℤ) := [(-1, 0), (0, 1), (1, 0), (0, -1)]

/-- `ContourBuilder.leftVertexOfFacingCellBorderDeltas`
(ContourBuilder.ts lines 453-458). -/
def leftVertexOfFacingCellBorderDeltas : List (ℤ × ℤ) :=
  [(0, 1), (1, 1), (1, 0), (0, 0)]

/-- State of the `buildRawContours` walk (ContourBuilder.ts lines 523-579):
the mutable per-cell `contourFlags` (indexed by cell coordinates; JS bitwise
operations act on the value modulo 2^32), the current cell, the current
direction (kept in 0..3 by the `& 0x3` updates) and the vertices pushed so
far. -/
structure WalkState where
  flags : ℤ × ℤ → ℕ
  cell : ℤ × ℤ
  direction : ℕ
  vertices : List ContourPoint

/-- One iteration of the `do` body of `buildRawContours` (ContourBuilder.ts
lines 532-567): if the flag bit of the current direction is set, push the
corner vertex (with the neighbor's region), clear the bit and rotate
clockwise; otherwise move to the neighbor cell and rotate
counterclockwise. -/
def buildRawContoursStep (regionID : ℤ × ℤ → ℤ) (s : WalkState) : WalkState :=
  if (s.flags s.cell % 4294967296) &&& 2 ^ s.direction ≠ 0 then
    let delta := leftVertexOfFacingCellBorderDeltas.getD s.direction (0, 0)
    let nd := neighbor4Deltas.getD s.direction (0, 0)
    { s with
      vertices := s.vertices ++
        [⟨s.cell.1 + delta.1, s.cell.2 + delta.2,
          regionID (s.cell.1 + nd.1, s.cell.2 + nd.2)⟩]
      flags := fun c =>
        if c = s.cell
        then (s.flags s.cell % 4294967296) &&& (4294967295 - 2 ^ s.direction)
        else s.flags c
      direction := (s.direction + 1) &&& 3 }
  else
    let nd := neighbor4Deltas.getD s.direction (0, 0)
    { s with
      cell := (s.cell.1 + nd.1, s.cell.2 + nd.2)
      direction := (s.direction + 3) &&& 3 }

/-- The `do ... while` loop of `buildRawContours` (ContourBuilder.ts lines
527-578): run the body, then continue while the walk has not returned to the
start pair and `++loopCount < 65535` (the `&&` short-circuits, so `loopCount`
is only incremented when the start test fails). The second component counts
how many times the body has run. -/
def buildRawContoursLoop (regionID : ℤ × ℤ → ℤ) (startCell : ℤ × ℤ)
    (startDirection : ℕ) (s : WalkState) (loopCount iterations : ℕ) :
    WalkState × ℕ :=
  let s2 := buildRawContoursStep regionID s
  let iterations2 := iterations + 1
  if s2.cell = startCell ∧ s2.direction = startDirection then (s2, iterations2)
  else if h : loopCount + 1 < 65535 then
    buildRawContoursLoop regionID startCell startDirection s2 (loopCount + 1)
      iterations2
  else (s2, iterations2)
termination_by 65535 - loopCount
decreasing_by omega

/-- `buildRawContours` (ContourBuilder.ts lines 485-580): walk from the given
start cell and direction; return the final state together with the number of
executed loop iterations. -/
def buildRawContours (regionID : ℤ × ℤ → ℤ) (flags0 : ℤ × ℤ → ℕ)
    (startCell : ℤ × ℤ) (startDirection : ℕ) : WalkState × ℕ :=
  buildRawContoursLoop regionID startCell startDirection
    ⟨flags0, startCell, startDirection, []⟩ 0 0

theorem buildRawContoursLoop_le (regionID : ℤ × ℤ → ℤ) (startCell : ℤ × ℤ)
    (startDirection : ℕ) :
    ∀ fuel loopCount iterations s, 65535 - loopCount = fuel →
      (buildRawContoursLoop regionID startCell startDirection s loopCount
          iterations).2 ≤ iterations + 1 + (65534 - loopCount) := by
  intro fuel
  induction fuel with
  | zero =>
    intro lc it s hfuel
    rw [buildRawContoursLoop]
    split
    · simp
    · split
      · exfalso
        omega
      · simp
  | succ fuel ih =>
    intro lc it s hfuel
    rw [buildRawContoursLoop]
    split
    · simp
    · split
      · have := ih (lc + 1) (it + 1)
          (buildRawContoursStep regionID s) (by omega)
        omega
      · simp

/-- C9. `buildRawContours` always terminates: its edge-walk loop body runs at
most 65535 times, for every grid (arbitrary flag and region assignments),
every start cell and every start direction — even when the walk never
returns to the starting (cell, direction) pair. -/
theorem c9_walk_loop_cap (regionID : ℤ × ℤ → ℤ) (flags0 : ℤ × ℤ → ℕ)
    (startCell : ℤ × ℤ) (startDirection : ℕ) :
    (buildRawContours regionID flags0 startCell startDirection).2 ≤ 65535 := by
  have := buildRawContoursLoop_le regionID startCell startDirection 65535 0 0
    ⟨flags0, startCell, startDirection, []⟩ rfl
  unfold buildRawContours
  omega

instance : Inhabited GridPoint :=
  ⟨⟨0, 0⟩⟩

/-- The grid as the rasterizer sees it: origin and cell sizes for the
world-to-grid conversion, the dimensions `dimX`/`dimY`, and the cells as a
total function on coordinates (standing for the `cells[y][x]` matrix; the
matrix holds exactly the coordinates `0 ≤ x < dimX`, `0 ≤ y < dimY`, which is
why accessing any other coordinate is an out-of-bounds access). -/
structure RastGrid where
  originX : ℚ
  originY : ℚ
  cellWidth : ℚ
  cellHeight : ℚ
  dimX : ℕ
  dimY : ℕ
  cells : ℤ × ℤ → RasterizationCell

/-- `RasterizationGrid.convertToGridBasis` (RasterizationGrid.ts lines
70-74). -/
def convertToGridBasis (g : RastGrid) (p : GridPoint) : GridPoint :=
  ⟨(p.x - g.originX) / g.cellWidth, (p.y - g.originY) / g.cellHeight⟩

/-- `Number.MAX_VALUE` as a rational (the initial value of the bounding-box
folds in `rasterizeObstacles`). -/
def qNumberMaxValue : ℚ := (NUMBER_MAX_VALUE : ℚ)

/-- `minX = Math.min(minX, vertex.x)` fold of `rasterizeObstacles`
(ObstacleRasterizer.ts lines 25-34), starting from `Number.MAX_VALUE`. -/
def bboxMinX (vertices : List GridPoint) : ℚ :=
  vertices.foldl (fun m v => min m v.x) qNumberMaxValue

/-- `maxX = Math.max(maxX, vertex.x)` fold, starting from
`-Number.MAX_VALUE`. -/
def bboxMaxX (vertices : List GridPoint) : ℚ :=
  vertices.foldl (fun m v => max m v.x) (-qNumberMaxValue)

/-- `minY` fold. -/
def bboxMinY (vertices : List GridPoint) : ℚ :=
  vertices.foldl (fun m v => min m v.y) qNumberMaxValue

/-- `maxY` fold. -/
def bboxMaxY (vertices : List GridPoint) : ℚ :=
  vertices.foldl (fun m v => max m v.y) (-qNumberMaxValue)

/-- The crossing nodes collected by one row of `scanY` (ObstacleRasterizer.ts
lines 137-155): for every vertex `v_i` with previous vertex `v_j`
(`j = i - 1` cyclically, starting from `j = n - 1`), if the half-open rule
holds, push the rounded interpolated crossing abscissa. -/
def scanYNodes (vertices : List GridPoint) (pixelCenterY : ℚ) : List ℤ :=
  (List.range vertices.length).filterMap fun i =>
    let vi := vertices.getD i default
    let vj := vertices.getD ((i + vertices.length - 1) % vertices.length)
      default
    if scanYNodeCond pixelCenterY vi vj
    then some (jsRound (vi.x +
      ((pixelCenterY - vi.y) / (vj.y - vi.y)) * (vj.x - vi.x)))
    else none

/-- The crossing nodes collected by one column of `scanX`
(ObstacleRasterizer.ts lines 203-221), using the strict-on-both-sides
condition. -/
def scanXNodes (vertices : List GridPoint) (pixelCenterX : ℚ) : List ℤ :=
  (List.range vertices.length).filterMap fun i =>
    let vi := vertices.getD i default
    let vj := vertices.getD ((i + vertices.length - 1) % vertices.length)
      default
    if scanXNodeCond pixelCenterX vi vj
    then some (jsRound (vi.y +
      ((pixelCenterX - vi.x) / (vj.x - vi.x)) * (vj.y - vi.y)))
    else none

/-- Swap of the adjacent entries `i` and `i + 1` (both reads from the list
before any write, like the JS three-line swap with a temporary). -/
def swapAdj (l : List ℤ) (i : ℕ) : List ℤ :=
  (l.set i (l.getD (i + 1) 0)).set (i + 1) (l.getD i 0)

/-- Number of inversions (out-of-order pairs) of a list; termination measure
of the gnome-style bubble sort of the source. -/
def inversions : List ℤ → ℕ
  | [] => 0
  | a :: t => t.countP (fun b => decide (b < a)) + inversions t

theorem exists_adj_decomp (l : List ℤ) :
    ∀ i : ℕ, i + 1 < l.length →
      ∃ l₁ a b l₂, l = l₁ ++ a :: b :: l₂ ∧ l₁.length = i ∧
        l.getD i 0 = a ∧ l.getD (i + 1) 0 = b := by
  induction l with
  | nil =>
    intro i h
    simp at h
  | cons c t ih =>
    intro i h
    cases i with
    | zero =>
      cases t with
      | nil => simp at h
      | cons b rest =>
        exact ⟨[], c, b, rest, rfl, rfl, rfl, rfl⟩
    | succ k =>
      simp only [List.length_cons] at h
      obtain ⟨l₁, a, b, l₂, hdec, hlen, ha, hb⟩ := ih k (by omega)
      refine ⟨c :: l₁, a, b, l₂, ?_, ?_, ?_, ?_⟩
      · rw [List.cons_append, hdec]
      · simp [hlen]
      · simpa using ha
      · simpa using hb

theorem swapAdj_cons (c : ℤ) (t : List ℤ) (i : ℕ) :
    swapAdj (c :: t) (i + 1) = c :: swapAdj t i := by
  simp [swapAdj, List.getD_cons_succ]

theorem swapAdj_decomp (l₁ : List ℤ) (a b : ℤ) (l₂ : List ℤ) :
    swapAdj (l₁ ++ a :: b :: l₂) l₁.length = l₁ ++ b :: a :: l₂ := by
  induction l₁ with
  | nil => simp [swapAdj]
  | cons c t ih =>
    simp only [List.cons_append, List.length_cons]
    rw [swapAdj_cons]
    rw [ih]

theorem inversions_cons (x : ℤ) (t : List ℤ) :
    inversions (x :: t) = t.countP (fun b => decide (b < x)) + inversions t :=
  rfl

theorem inversions_swap (a b : ℤ) (hba : b < a) :
    ∀ l₁ l₂ : List ℤ,
      inversions (l₁ ++ b :: a :: l₂) + 1 = inversions (l₁ ++ a :: b :: l₂) := by
  intro l₁
  induction l₁ with
  | nil =>
    intro l₂
    simp only [List.nil_append, inversions_cons, List.countP_cons,
      decide_eq_true_eq]
    have h1 : ¬ (a < b) := by omega
    rw [if_neg h1, if_pos hba]
    omega
  | cons c t ih =>
    intro l₂
    rw [List.cons_append, List.cons_append, inversions_cons, inversions_cons]
    have hperm : (t ++ b :: a :: l₂).Perm (t ++ a :: b :: l₂) :=
      List.Perm.append_left t (List.Perm.swap a b l₂)
    rw [hperm.countP_eq]
    have := ih l₂
    omega

theorem swapAdj_perm (l : List ℤ) (i : ℕ) (h : i + 1 < l.length) :
    (swapAdj l i).Perm l := by
  obtain ⟨l₁, a, b, l₂, hdec, hlen, _, _⟩ := exists_adj_decomp l i h
  subst hdec
  rw [← hlen, swapAdj_decomp]
  exact List.Perm.append_left l₁ (List.Perm.swap a b l₂)

theorem swapAdj_length (l : List ℤ) (i : ℕ) :
    (swapAdj l i).length = l.length := by
  simp [swapAdj]

theorem inversions_swapAdj (l : List ℤ) (i : ℕ) (h : i + 1 < l.length)
    (hgt : l.getD (i + 1) 0 < l.getD i 0) :
    inversions (swapAdj l i) + 1 = inversions l := by
  obtain ⟨l₁, a, b, l₂, hdec, hlen, ha, hb⟩ := exists_adj_decomp l i h
  rw [ha, hb] at hgt
  subst hdec
  rw [← hlen, swapAdj_decomp]
  exact inversions_swap a b hgt l₁ l₂

/-- The in-place "bubble" sort of the source (ObstacleRasterizer.ts lines
157-170), actually a gnome sort: compare entries `i` and `i + 1`, swap and
step back on disorder (staying at 0 when `i = 0`), otherwise step forward. -/
def bubbleSortGo (l : List ℤ) (i : ℕ) : List ℤ :=
  if hlt : i < l.length - 1 then
    if hgt : l.getD (i + 1) 0 < l.getD i 0 then
      bubbleSortGo (swapAdj l i) (if 0 < i then i - 1 else i)
    else
      bubbleSortGo l (i + 1)
  else l
termination_by inversions l * (l.length + 1) + (l.length - i)
decreasing_by
  · have h1 : i + 1 < l.length := by omega
    have h2 := inversions_swapAdj l i h1 hgt
    rw [swapAdj_length, ← h2, Nat.succ_mul]
    omega
  · omega

/-- The same gnome sort with an explicit fuel counter, structurally
recursive so that it evaluates by kernel reduction. `bubbleSortF_eq_go`
proves it equal to `bubbleSortGo` whenever the fuel exceeds the loop
variant `inversions l * (l.length + 1) + (l.length - i)`, which strictly
decreases at each iteration. -/
def bubbleSortF : ℕ → List ℤ → ℕ → List ℤ
  | 0, l, _ => l
  | fuel + 1, l, i =>
    if i < l.length - 1 then
      if l.getD (i + 1) 0 < l.getD i 0 then
        bubbleSortF fuel (swapAdj l i) (if 0 < i then i - 1 else i)
      else
        bubbleSortF fuel l (i + 1)
    else l

theorem bubbleSortF_eq_go :
    ∀ (fuel : ℕ) (l : List ℤ) (i : ℕ),
      inversions l * (l.length + 1) + (l.length - i) < fuel →
      bubbleSortF fuel l i = bubbleSortGo l i := by
  intro fuel
  induction fuel with
  | zero =>
    intro l i h
    omega
  | succ fuel ih =>
    intro l i h
    rw [bubbleSortF, bubbleSortGo]
    by_cases hlt : i < l.length - 1
    · rw [if_pos hlt, dif_pos hlt]
      by_cases hgt : l.getD (i + 1) 0 < l.getD i 0
      · rw [if_pos hgt, dif_pos hgt]
        apply ih
        have h1 : i + 1 < l.length := by omega
        have h2 := inversions_swapAdj l i h1 hgt
        rw [swapAdj_length]
        rw [← h2, Nat.succ_mul] at h
        omega
      · rw [if_neg hgt, dif_neg hgt]
        apply ih
        omega
    · rw [if_neg hlt, dif_neg hlt]

/-- The node sort of the source: run the gnome sort from index 0 with
sufficient fuel. -/
def bubbleSort (l : List ℤ) : List ℤ :=
  bubbleSortF (inversions l * (l.length + 1) + (l.length + 1)) l 0

theorem bubbleSort_eq_go (l : List ℤ) : bubbleSort l = bubbleSortGo l 0 :=
  bubbleSortF_eq_go _ l 0 (by omega)

theorem bubbleSortGo_perm (l : List ℤ) (i : ℕ) : (bubbleSortGo l i).Perm l := by
  rw [bubbleSortGo]
  split
  · rename_i hlt
    split
    · rename_i hgt
      have h1 : i + 1 < l.length := by omega
      have := bubbleSortGo_perm (swapAdj l i) (if 0 < i then i - 1 else i)
      exact this.trans (swapAdj_perm l i h1)
    · exact bubbleSortGo_perm l (i + 1)
  · exact List.Perm.refl l
termination_by inversions l * (l.length + 1) + (l.length - i)
decreasing_by
  all_goals
    first
      | omega
      | (rename_i hgt2
         have h1 : i + 1 < l.length := by omega
         have h2 := inversions_swapAdj l i h1 hgt2
         rw [swapAdj_length, ← h2, Nat.succ_mul]
         omega)

theorem bubbleSort_perm (l : List ℤ) : (bubbleSort l).Perm l := by
  rw [bubbleSort_eq_go]
  exact bubbleSortGo_perm l 0

/-- The integers from `a` (inclusive) to `b` (exclusive), the range of a JS
`for (let k = a; k < b; k++)` loop. -/
def intRange (a b : ℤ) : List ℤ :=
  (List.range (b - a).toNat).map fun k : ℕ => a + (k : ℤ)

/-- The node-pair loop of `scanY`/`scanX` (ObstacleRasterizer.ts lines
172-187 and 238-253): walk the sorted nodes two by two; `break` when the pair
starts at or past the upper clip bound, skip (`continue`) pairs ending at or
before the lower bound, clamp the surviving pair to the bounds. A trailing
odd node yields nothing (in JS every comparison against `undefined` is false
and the fill loop over `[n, undefined)` is empty). -/
def nodePairs (minB maxB : ℤ) : List ℤ → List (ℤ × ℤ)
  | n1 :: n2 :: rest =>
    if maxB ≤ n1 then []
    else if n2 ≤ minB then nodePairs minB maxB rest
    else (max n1 minB, min n2 maxB) :: nodePairs minB maxB rest
  | _ => []

/-- The cells filled by the first `scanY` pass (ObstacleRasterizer.ts lines
72-85): for every row, every clipped node pair `(a, b)` fills the pixels
`a ≤ x < b`. -/
def scanYPass1Fills (vertices : List GridPoint) (minX maxX minY maxY : ℤ) :
    List (ℤ × ℤ) :=
  (intRange minY maxY).flatMap fun pixelY =>
    (nodePairs minX maxX
        (bubbleSort (scanYNodes vertices ((pixelY : ℚ) + 1 / 2)))).flatMap
      fun p => (intRange p.1 p.2).map fun x => (x, pixelY)

/-- The cells filled by the second, "thin horizontal" `scanY` pass
(ObstacleRasterizer.ts lines 91-104): a clipped pair `(a, a)` fills the
single pixel `a`. -/
def scanYThinFills (vertices : List GridPoint) (minX maxX minY maxY : ℤ) :
    List (ℤ × ℤ) :=
  (intRange minY maxY).flatMap fun pixelY =>
    (nodePairs minX maxX
        (bubbleSort (scanYNodes vertices ((pixelY : ℚ) + 1 / 2)))).flatMap
      fun p => if p.1 = p.2 then [(p.1, pixelY)] else []

/-- The cells filled by the `scanX` pass (ObstacleRasterizer.ts lines
106-122): for every column, every clipped pair `(a, b)` fills the pixels
`a ≤ y < b`, plus the single pixel `a` when `a = b` (thin vertical case). -/
def scanXFills (vertices : List GridPoint) (minX maxX minY maxY : ℤ) :
    List (ℤ × ℤ) :=
  (intRange minX maxX).flatMap fun pixelX =>
    (nodePairs minY maxY
        (bubbleSort (scanXNodes vertices ((pixelX : ℚ) + 1 / 2)))).flatMap
      fun p => ((intRange p.1 p.2).map fun y => (pixelX, y)) ++
        (if p.1 = p.2 then [(pixelX, p.1)] else [])

/-- `fillPolygon` (ObstacleRasterizer.ts lines 51-123) as the list of `fill`
calls it performs: the first `scanY` pass, and if it filled no pixel at all,
the thin-horizontal `scanY` pass followed by the `scanX` pass. -/
def fillPolygonFills (vertices : List GridPoint) (minX maxX minY maxY : ℤ) :
    List (ℤ × ℤ) :=
  let pass1 := scanYPass1Fills vertices minX maxX minY maxY
  if pass1 = [] then
    scanYThinFills vertices minX maxX minY maxY ++
      scanXFills vertices minX maxX minY maxY
  else pass1

/-- `rasterizeObstacles` (ObstacleRasterizer.ts lines 14-49) as the list of
`fill` calls: convert each obstacle's vertices to grid coordinates, compute
the clipped integer bounding box, and run `fillPolygon`. -/
def rasterizeObstaclesFills (g : RastGrid) (obstacles : List (List GridPoint)) :
    List (ℤ × ℤ) :=
  obstacles.flatMap fun polygon =>
    let vertices := polygon.map (convertToGridBasis g)
    let minX := max ⌊bboxMinX vertices⌋ 0
    let maxX := min ⌈bboxMaxX vertices⌉ (g.dimX : ℤ)
    let minY := max ⌊bboxMinY vertices⌋ 0
    let maxY := min ⌈bboxMaxY vertices⌉ (g.dimY : ℤ)
    fillPolygonFills vertices minX maxX minY maxY

/-- Apply the recorded `fill` calls: each one sets `distanceToObstacle = 0`
on its cell (`grid.get(x, y).distanceToObstacle = 0`). (In JS an
out-of-bounds fill would dereference `undefined`; the access legality is
stated separately about the recorded coordinates.) -/
def applyFills (g : RastGrid) (fills : List (ℤ × ℤ)) : RastGrid :=
  fills.foldl
    (fun g2 p =>
      { g2 with cells := fun c =>
          if c = p
          then { g2.cells c with distanceToObstacle := 0 }
          else g2.cells c })
    g

/-- `rasterizeObstacles`: the grid after all fills. -/
def rasterizeObstacles (g : RastGrid) (obstacles : List (List GridPoint)) :
    RastGrid :=
  applyFills g (rasterizeObstaclesFills g obstacles)

theorem nodePairs_mem (minB maxB : ℤ) (l : List ℤ) (p : ℤ × ℤ)
    (hp : p ∈ nodePairs minB maxB l) :
    ∃ n1 n2, n1 ∈ l ∧ n2 ∈ l ∧ n1 < maxB ∧ minB < n2 ∧
      p = (max n1 minB, min n2 maxB) := by
  induction l using nodePairs.induct minB maxB with
  | case1 n1 n2 rest h => simp [nodePairs, h] at hp
  | case2 n1 n2 rest h h2 ih =>
    rw [nodePairs, if_neg h, if_pos h2] at hp
    obtain ⟨m1, m2, hm1, hm2, hh⟩ := ih hp
    exact ⟨m1, m2, by simp [hm1], by simp [hm2], hh⟩
  | case3 n1 n2 rest h h2 ih =>
    rw [nodePairs, if_neg h, if_neg h2] at hp
    rcases List.mem_cons.mp hp with hp | hp
    · exact ⟨n1, n2, by simp, by simp, by omega, by omega, hp⟩
    · obtain ⟨m1, m2, hm1, hm2, hh⟩ := ih hp
      exact ⟨m1, m2, by simp [hm1], by simp [hm2], hh⟩
  | case4 l h =>
    rcases l with _ | ⟨a, _ | ⟨b, t⟩⟩
    · simp [nodePairs] at hp
    · simp [nodePairs] at hp
    · exact absurd rfl (h a b t)

theorem foldl_min_le_init (f : GridPoint → ℚ) :
    ∀ (l : List GridPoint) (init : ℚ),
      l.foldl (fun m w => min m (f w)) init ≤ init := by
  intro l
  induction l with
  | nil => intro init; simp
  | cons w t ih =>
    intro init
    calc t.foldl (fun m w => min m (f w)) (min init (f w)) ≤ min init (f w) :=
          ih (min init (f w))
    _ ≤ init := min_le_left _ _

theorem foldl_min_le (f : GridPoint → ℚ) :
    ∀ (l : List GridPoint) (init : ℚ) (v : GridPoint), v ∈ l →
      l.foldl (fun m w => min m (f w)) init ≤ f v := by
  intro l
  induction l with
  | nil => intro init v hv; simp at hv
  | cons w t ih =>
    intro init v hv
    rcases List.mem_cons.mp hv with hv | hv
    · subst hv
      calc t.foldl (fun m w => min m (f w)) (min init (f v)) ≤ min init (f v) :=
            foldl_min_le_init f t _
      _ ≤ f v := min_le_right _ _
    · exact ih (min init (f w)) v hv

theorem foldl_max_ge_init (f : GridPoint → ℚ) :
    ∀ (l : List GridPoint) (init : ℚ),
      init ≤ l.foldl (fun m w => max m (f w)) init := by
  intro l
  induction l with
  | nil => intro init; simp
  | cons w t ih =>
    intro init
    calc init ≤ max init (f w) := le_max_left _ _
    _ ≤ t.foldl (fun m w => max m (f w)) (max init (f w)) := ih _

theorem foldl_max_ge (f : GridPoint → ℚ) :
    ∀ (l : List GridPoint) (init : ℚ) (v : GridPoint), v ∈ l →
      f v ≤ l.foldl (fun m w => max m (f w)) init := by
  intro l
  induction l with
  | nil => intro init v hv; simp at hv
  | cons w t ih =>
    intro init v hv
    rcases List.mem_cons.mp hv with hv | hv
    · subst hv
      calc f v ≤ max init (f v) := le_max_right _ _
      _ ≤ t.foldl (fun m w => max m (f w)) (max init (f v)) :=
            foldl_max_ge_init f t _
    · exact ih (max init (f w)) v hv

theorem bboxMinX_le (vertices : List GridPoint) (v : GridPoint)
    (hv : v ∈ vertices) : bboxMinX vertices ≤ v.x :=
  foldl_min_le (fun p => p.x) vertices qNumberMaxValue v hv

theorem le_bboxMaxX (vertices : List GridPoint) (v : GridPoint)
    (hv : v ∈ vertices) : v.x ≤ bboxMaxX vertices :=
  foldl_max_ge (fun p => p.x) vertices (-qNumberMaxValue) v hv

theorem bboxMinY_le (vertices : List GridPoint) (v : GridPoint)
    (hv : v ∈ vertices) : bboxMinY vertices ≤ v.y :=
  foldl_min_le (fun p => p.y) vertices qNumberMaxValue v hv

theorem le_bboxMaxY (vertices : List GridPoint) (v : GridPoint)
    (hv : v ∈ vertices) : v.y ≤ bboxMaxY vertices :=
  foldl_max_ge (fun p => p.y) vertices (-qNumberMaxValue) v hv

theorem interp_factor_bounds (a b c : ℚ)
    (h : (a ≤ c ∧ c < b) ∨ (b < c ∧ c ≤ a)) :
    0 ≤ (c - a) / (b - a) ∧ (c - a) / (b - a) ≤ 1 := by
  rcases h with ⟨h1, h2⟩ | ⟨h1, h2⟩
  · have hden : 0 < b - a := by linarith
    constructor
    · exact div_nonneg (by linarith) (le_of_lt hden)
    · rw [div_le_one hden]
      linarith
  · have hrw : (c - a) / (b - a) = (a - c) / (a - b) := by
      rw [show c - a = -(a - c) by ring, show b - a = -(a - b) by ring,
        neg_div_neg_eq]
    rw [hrw]
    have hden : 0 < a - b := by linarith
    constructor
    · exact div_nonneg (by linarith) (le_of_lt hden)
    · rw [div_le_one hden]
      linarith

theorem interp_between (x0 x1 : ℚ) (t : ℚ) (h0 : 0 ≤ t) (h1 : t ≤ 1) :
    min x0 x1 ≤ x0 + t * (x1 - x0) ∧ x0 + t * (x1 - x0) ≤ max x0 x1 := by
  rcases le_total x0 x1 with hle | hle
  · have hd : 0 ≤ x1 - x0 := by linarith
    have hlo : 0 ≤ t * (x1 - x0) := mul_nonneg h0 hd
    have hhi : t * (x1 - x0) ≤ x1 - x0 := by
      calc t * (x1 - x0) ≤ 1 * (x1 - x0) := mul_le_mul_of_nonneg_right h1 hd
      _ = x1 - x0 := one_mul _
    constructor
    · calc min x0 x1 ≤ x0 := min_le_left _ _
      _ ≤ x0 + t * (x1 - x0) := by linarith
    · calc x0 + t * (x1 - x0) ≤ x0 + (x1 - x0) := by linarith
      _ = x1 := by ring
      _ ≤ max x0 x1 := le_max_right _ _
  · have hd : x1 - x0 ≤ 0 := by linarith
    have hlo : x1 - x0 ≤ t * (x1 - x0) := by
      calc x1 - x0 = 1 * (x1 - x0) := (one_mul _).symm
      _ ≤ t * (x1 - x0) := mul_le_mul_of_nonpos_right h1 hd
    have hhi : t * (x1 - x0) ≤ 0 := mul_nonpos_of_nonneg_of_nonpos h0 hd
    constructor
    · calc min x0 x1 ≤ x1 := min_le_right _ _
      _ = x0 + (x1 - x0) := by ring
      _ ≤ x0 + t * (x1 - x0) := by linarith
    · calc x0 + t * (x1 - x0) ≤ x0 + 0 := by linarith
      _ = x0 := by ring
      _ ≤ max x0 x1 := le_max_left _ _

theorem jsRound_bounds (x lo hi : ℚ) (hlo : lo ≤ x) (hhi : x ≤ hi) :
    ⌊lo⌋ ≤ jsRound x ∧ jsRound x ≤ ⌈hi⌉ := by
  unfold jsRound
  constructor
  · calc ⌊lo⌋ ≤ ⌊x⌋ := Int.floor_le_floor hlo
    _ ≤ ⌊x + 1 / 2⌋ := Int.floor_le_floor (by linarith)
  · have h1 : ⌊x + 1 / 2⌋ ≤ ⌊hi + 1 / 2⌋ := Int.floor_le_floor (by linarith)
    have h2 : ⌊hi + 1 / 2⌋ ≤ ⌈hi⌉ := by
      rw [Int.floor_le_iff]
      have := Int.le_ceil hi
      linarith
    omega

theorem scanYNodes_bounds (vertices : List GridPoint) (cy : ℚ) (n : ℤ)
    (hn : n ∈ scanYNodes vertices cy) :
    ⌊bboxMinX vertices⌋ ≤ n ∧ n ≤ ⌈bboxMaxX vertices⌉ := by
  unfold scanYNodes at hn
  obtain ⟨i, hi, hsome⟩ := List.mem_filterMap.mp hn
  have hilen : i < vertices.length := List.mem_range.mp hi
  by_cases hcond : scanYNodeCond cy (vertices.getD i default)
      (vertices.getD ((i + vertices.length - 1) % vertices.length) default)
  · rw [if_pos hcond] at hsome
    have hn2 := Option.some.inj hsome
    set vi := vertices.getD i default with hvi
    set vj := vertices.getD ((i + vertices.length - 1) % vertices.length)
      default with hvj
    have hmi : vi ∈ vertices := by
      rw [hvi, List.getD_eq_getElem vertices default hilen]
      exact List.getElem_mem hilen
    have hjlen : (i + vertices.length - 1) % vertices.length <
        vertices.length := Nat.mod_lt _ (by omega)
    have hmj : vj ∈ vertices := by
      rw [hvj, List.getD_eq_getElem vertices default hjlen]
      exact List.getElem_mem hjlen
    have ht := interp_factor_bounds vi.y vj.y cy hcond
    have hbet := interp_between vi.x vj.x ((cy - vi.y) / (vj.y - vi.y)) ht.1
      ht.2
    have hlo : bboxMinX vertices ≤
        vi.x + (cy - vi.y) / (vj.y - vi.y) * (vj.x - vi.x) := by
      have h1 : bboxMinX vertices ≤ min vi.x vj.x :=
        le_min (bboxMinX_le vertices vi hmi) (bboxMinX_le vertices vj hmj)
      linarith [hbet.1]
    have hhi : vi.x + (cy - vi.y) / (vj.y - vi.y) * (vj.x - vi.x) ≤
        bboxMaxX vertices := by
      have h1 : max vi.x vj.x ≤ bboxMaxX vertices :=
        max_le (le_bboxMaxX vertices vi hmi) (le_bboxMaxX vertices vj hmj)
      linarith [hbet.2]
    rw [← hn2]
    exact jsRound_bounds _ _ _ hlo hhi
  · rw [if_neg hcond] at hsome
    simp at hsome

theorem scanXNodes_bounds (vertices : List GridPoint) (cx : ℚ) (n : ℤ)
    (hn : n ∈ scanXNodes vertices cx) :
    ⌊bboxMinY vertices⌋ ≤ n ∧ n ≤ ⌈bboxMaxY vertices⌉ := by
  unfold scanXNodes at hn
  obtain ⟨i, hi, hsome⟩ := List.mem_filterMap.mp hn
  have hilen : i < vertices.length := List.mem_range.mp hi
  by_cases hcond : scanXNodeCond cx (vertices.getD i default)
      (vertices.getD ((i + vertices.length - 1) % vertices.length) default)
  · rw [if_pos hcond] at hsome
    have hn2 := Option.some.inj hsome
    set vi := vertices.getD i default with hvi
    set vj := vertices.getD ((i + vertices.length - 1) % vertices.length)
      default with hvj
    have hmi : vi ∈ vertices := by
      rw [hvi, List.getD_eq_getElem vertices default hilen]
      exact List.getElem_mem hilen
    have hjlen : (i + vertices.length - 1) % vertices.length <
        vertices.length := Nat.mod_lt _ (by omega)
    have hmj : vj ∈ vertices := by
      rw [hvj, List.getD_eq_getElem vertices default hjlen]
      exact List.getElem_mem hjlen
    have hcond2 : (vi.x ≤ cx ∧ cx < vj.x) ∨ (vj.x < cx ∧ cx ≤ vi.x) := by
      rcases hcond with ⟨h1, h2⟩ | ⟨h1, h2⟩
      · exact Or.inl ⟨le_of_lt h1, h2⟩
      · exact Or.inr ⟨h1, le_of_lt h2⟩
    have ht := interp_factor_bounds vi.x vj.x cx hcond2
    have hbet := interp_between vi.y vj.y ((cx - vi.x) / (vj.x - vi.x)) ht.1
      ht.2
    have hlo : bboxMinY vertices ≤
        vi.y + (cx - vi.x) / (vj.x - vi.x) * (vj.y - vi.y) := by
      have h1 : bboxMinY vertices ≤ min vi.y vj.y :=
        le_min (bboxMinY_le vertices vi hmi) (bboxMinY_le vertices vj hmj)
      linarith [hbet.1]
    have hhi : vi.y + (cx - vi.x) / (vj.x - vi.x) * (vj.y - vi.y) ≤
        bboxMaxY vertices := by
      have h1 : max vi.y vj.y ≤ bboxMaxY vertices :=
        max_le (le_bboxMaxY vertices vi hmi) (le_bboxMaxY vertices vj hmj)
      linarith [hbet.2]
    rw [← hn2]
    exact jsRound_bounds _ _ _ hlo hhi
  · rw [if_neg hcond] at hsome
    simp at hsome

def noColumnGrid : RastGrid := ⟨0, 0, 1, 1, 0, 2, fun _ => default⟩
def straddlingRect : List GridPoint :=
  [⟨-3/5, 0⟩, ⟨3/5, 0⟩, ⟨3/5, 1⟩, ⟨-3/5, 1⟩]

theorem noColumnGrid_verts :
    straddlingRect.map (convertToGridBasis noColumnGrid) = straddlingRect := by
  norm_num [convertToGridBasis, noColumnGrid, straddlingRect]

theorem straddlingRect_nodes :
    scanYNodes straddlingRect (((0 : ℤ) : ℚ) + 1 / 2) = [-1, 1] := by
  norm_num [scanYNodes, straddlingRect, List.range_succ, List.filterMap_cons,
    List.getD, scanYNodeCond, jsRound]

/-- C4 counterexample: on a grid whose constructor received inverted x-bounds
(dimX = 0), rasterizeObstacles still emits a fill at cell (0, 0), i.e. it
accesses a cell outside the 0 x 2 grid, refuting the claim that every marked
cell lies within the grid bounds. -/
theorem c4_access_counterexample :
    noColumnGrid.dimX = 0 ∧
      ((0 : ℤ), (0 : ℤ)) ∈
        rasterizeObstaclesFills noColumnGrid [straddlingRect] := by
  refine ⟨rfl, ?_⟩
  rw [rasterizeObstaclesFills]
  simp only [List.flatMap_cons, List.flatMap_nil, List.append_nil,
    noColumnGrid_verts]
  have hminx : bboxMinX straddlingRect = -3/5 := by
    norm_num [bboxMinX, straddlingRect, qNumberMaxValue, NUMBER_MAX_VALUE,
      min_def]
  have hmaxx : bboxMaxX straddlingRect = 3/5 := by
    norm_num [bboxMaxX, straddlingRect, qNumberMaxValue, NUMBER_MAX_VALUE,
      max_def]
  have hminy : bboxMinY straddlingRect = 0 := by
    norm_num [bboxMinY, straddlingRect, qNumberMaxValue, NUMBER_MAX_VALUE,
      min_def]
  have hmaxy : bboxMaxY straddlingRect = 1 := by
    norm_num [bboxMaxY, straddlingRect, qNumberMaxValue, NUMBER_MAX_VALUE,
      max_def]
  rw [hminx, hmaxx, hminy, hmaxy]
  have hfl : (max ⌊(-3/5 : ℚ)⌋ 0 : ℤ) = 0 := by norm_num
  have hceil35 : (⌈(3/5 : ℚ)⌉ : ℤ) = 1 := by
    rw [Int.ceil_eq_iff]; norm_num
  have hfr : (min ⌈(3/5 : ℚ)⌉ (noColumnGrid.dimX : ℤ) : ℤ) = 0 := by
    rw [hceil35]; norm_num [noColumnGrid]
  have hft : (max ⌊(0 : ℚ)⌋ 0 : ℤ) = 0 := by norm_num
  have hfb : (min ⌈(1 : ℚ)⌉ (noColumnGrid.dimY : ℤ) : ℤ) = 1 := by
    rw [Int.ceil_one]; norm_num [noColumnGrid]
  rw [hfl, hfr, hft, hfb]
  have hrange01 : intRange 0 1 = [0] := by
    norm_num [intRange, List.range_succ]
  have hrange00 : intRange 0 0 = [] := by
    norm_num [intRange]
  have hsort : bubbleSort [(-1 : ℤ), 1] = [-1, 1] := by decide
  have hpairs : nodePairs 0 0 [(-1 : ℤ), 1] = [(0, 0)] := by decide
  have hpass1 : scanYPass1Fills straddlingRect 0 0 0 1 = [] := by
    rw [scanYPass1Fills, hrange01]
    simp only [List.flatMap_cons, List.flatMap_nil, List.append_nil,
      straddlingRect_nodes, hsort, hpairs, hrange00, List.map_nil,
      List.flatMap_nil]
  have hthin : scanYThinFills straddlingRect 0 0 0 1 = [(0, 0)] := by
    rw [scanYThinFills, hrange01]
    simp only [List.flatMap_cons, List.flatMap_nil, List.append_nil,
      straddlingRect_nodes, hsort, hpairs]
    norm_num
  rw [fillPolygonFills]
  simp [hpass1, hthin]

theorem mem_intRange (n a b : ℤ) : n ∈ intRange a b ↔ a ≤ n ∧ n < b := by
  unfold intRange
  simp only [List.mem_map, List.mem_range]
  constructor
  · rintro ⟨k, hk, rfl⟩
    omega
  · rintro ⟨h1, h2⟩
    exact ⟨(n - a).toNat, by omega, by omega⟩

theorem scanYPass1Fills_bounds (vertices : List GridPoint)
    (minX maxX minY maxY : ℤ) (p : ℤ × ℤ)
    (hp : p ∈ scanYPass1Fills vertices minX maxX minY maxY) :
    minX ≤ p.1 ∧ p.1 < maxX ∧ minY ≤ p.2 ∧ p.2 < maxY := by
  unfold scanYPass1Fills at hp
  simp only [List.mem_flatMap, List.mem_map] at hp
  obtain ⟨pixelY, hY, pr, hpr, x, hxmem, rfl⟩ := hp
  rw [mem_intRange] at hY hxmem
  obtain ⟨n1, n2, hn1, hn2, hlt1, hlt2, hpr_eq⟩ := nodePairs_mem _ _ _ _ hpr
  subst hpr_eq
  dsimp only at hxmem ⊢
  omega

theorem scanYThinFills_bounds (vertices : List GridPoint)
    (minX maxX minY maxY : ℤ) (p : ℤ × ℤ)
    (hp : p ∈ scanYThinFills vertices minX maxX minY maxY) :
    ∃ n, n ∈ scanYNodes vertices ((p.2 : ℚ) + 1 / 2) ∧ n < maxX ∧
      p.1 = max n minX ∧ minY ≤ p.2 ∧ p.2 < maxY := by
  unfold scanYThinFills at hp
  simp only [List.mem_flatMap] at hp
  obtain ⟨pixelY, hY, pr, hpr, hin⟩ := hp
  rw [mem_intRange] at hY
  obtain ⟨n1, n2, hn1, hn2, hlt1, hlt2, hpr_eq⟩ := nodePairs_mem _ _ _ _ hpr
  subst hpr_eq
  split at hin
  · rw [List.mem_singleton] at hin
    subst hin
    dsimp only
    exact ⟨n1, (bubbleSort_perm _).mem_iff.mp hn1, hlt1, rfl, hY.1, hY.2⟩
  · simp at hin

theorem scanXFills_bounds (vertices : List GridPoint)
    (minX maxX minY maxY : ℤ) (p : ℤ × ℤ)
    (hp : p ∈ scanXFills vertices minX maxX minY maxY) :
    minX ≤ p.1 ∧ p.1 < maxX ∧
      (minY ≤ p.2 ∧ p.2 < maxY ∨
        ∃ n, n ∈ scanXNodes vertices ((p.1 : ℚ) + 1 / 2) ∧ n < maxY ∧
          p.2 = max n minY) := by
  unfold scanXFills at hp
  simp only [List.mem_flatMap] at hp
  obtain ⟨pixelX, hX, pr, hpr, hin⟩ := hp
  rw [mem_intRange] at hX
  obtain ⟨n1, n2, hn1, hn2, hlt1, hlt2, hpr_eq⟩ := nodePairs_mem _ _ _ _ hpr
  subst hpr_eq
  rw [List.mem_append] at hin
  rcases hin with hin | hin
  · rw [List.mem_map] at hin
    obtain ⟨y, hy, rfl⟩ := hin
    rw [mem_intRange] at hy
    dsimp only at hy ⊢
    exact ⟨hX.1, hX.2, Or.inl (by omega)⟩
  · split at hin
    · rw [List.mem_singleton] at hin
      subst hin
      dsimp only
      exact ⟨hX.1, hX.2,
        Or.inr ⟨n1, (bubbleSort_perm _).mem_iff.mp hn1, hlt1, rfl⟩⟩
    · simp at hin

theorem rasterizeObstaclesFills_bounds (g : RastGrid)
    (obstacles : List (List GridPoint)) (hx : 1 ≤ g.dimX) (hy : 1 ≤ g.dimY)
    (p : ℤ × ℤ) (hp : p ∈ rasterizeObstaclesFills g obstacles) :
    0 ≤ p.1 ∧ p.1 < (g.dimX : ℤ) ∧ 0 ≤ p.2 ∧ p.2 < (g.dimY : ℤ) := by
  unfold rasterizeObstaclesFills at hp
  simp only [List.mem_flatMap] at hp
  obtain ⟨polygon, hpoly, hp⟩ := hp
  simp only [fillPolygonFills] at hp
  split at hp
  · rw [List.mem_append] at hp
    rcases hp with hp | hp
    · obtain ⟨n, hnmem, hnlt, hp1, hp2a, hp2b⟩ :=
        scanYThinFills_bounds _ _ _ _ _ _ hp
      have hb := scanYNodes_bounds _ _ _ hnmem
      omega
    · obtain ⟨h1, h2, h3⟩ := scanXFills_bounds _ _ _ _ _ _ hp
      rcases h3 with h3 | ⟨n, hnmem, hnlt, hp2⟩
      · omega
      · have hb := scanXNodes_bounds _ _ _ hnmem
        omega
  · have := scanYPass1Fills_bounds _ _ _ _ _ _ hp
    omega

/-- One `fill` call: the step function of the `applyFills` fold. -/
def fillStep (g2 : RastGrid) (p : ℤ × ℤ) : RastGrid :=
  { g2 with cells := fun c =>
      if c = p
      then { g2.cells c with distanceToObstacle := 0 }
      else g2.cells c }

theorem applyFills_cons (g : RastGrid) (f : ℤ × ℤ) (fs : List (ℤ × ℤ)) :
    applyFills g (f :: fs) = applyFills (fillStep g f) fs := rfl

theorem fillStep_cells (g : RastGrid) (f c : ℤ × ℤ) :
    (fillStep g f).cells c =
      if c = f
      then { g.cells c with distanceToObstacle := 0 }
      else g.cells c := rfl

theorem applyFills_cells (fills : List (ℤ × ℤ)) (g : RastGrid) (c : ℤ × ℤ) :
    (applyFills g fills).cells c = g.cells c ∨
      ((applyFills g fills).cells c =
          { g.cells c with distanceToObstacle := 0 } ∧ c ∈ fills) := by
  induction fills generalizing g with
  | nil => exact Or.inl rfl
  | cons f fs ih =>
    rw [applyFills_cons]
    rcases ih (fillStep g f) with h | ⟨h, hmem⟩
    · by_cases hc : c = f
      · subst hc
        right
        refine ⟨?_, List.mem_cons_self _ _⟩
        rw [h, fillStep_cells, if_pos rfl]
      · left
        rw [h, fillStep_cells, if_neg hc]
    · by_cases hc : c = f
      · subst hc
        right
        refine ⟨?_, List.mem_cons_self _ _⟩
        rw [h, fillStep_cells, if_pos rfl]
      · right
        refine ⟨?_, List.mem_cons.mpr (Or.inr hmem)⟩
        rw [h, fillStep_cells, if_neg hc]

theorem applyFills_fields (fills : List (ℤ × ℤ)) (g : RastGrid) :
    (applyFills g fills).originX = g.originX ∧
      (applyFills g fills).originY = g.originY ∧
      (applyFills g fills).cellWidth = g.cellWidth ∧
      (applyFills g fills).cellHeight = g.cellHeight ∧
      (applyFills g fills).dimX = g.dimX ∧
      (applyFills g fills).dimY = g.dimY := by
  induction fills generalizing g with
  | nil => exact ⟨rfl, rfl, rfl, rfl, rfl, rfl⟩
  | cons f fs ih => exact ih (fillStep g f)

/-- A 1 x 1 grid with default cells. -/
def unitGrid : RastGrid := ⟨0, 0, 1, 1, 1, 1, fun _ => default⟩

/-- C4 (amended): when the grid has at least one column and one row, every
`fill` recorded by `rasterizeObstacles` stays inside the cell matrix
(0 ≤ x < dimX and 0 ≤ y < dimY), the grid's scalar fields are unchanged,
and the only cell mutation is setting `distanceToObstacle` to 0 on filled
cells; every other cell is untouched. (On a grid built from inverted
bounds, so that dimX = 0 or dimY = 0, the access-safety part is false:
see the counterexample.) -/
theorem c4_rasterize_amended (g : RastGrid) (obstacles : List (List GridPoint))
    (hx : 1 ≤ g.dimX) (hy : 1 ≤ g.dimY) :
    (∀ p ∈ rasterizeObstaclesFills g obstacles,
        0 ≤ p.1 ∧ p.1 < (g.dimX : ℤ) ∧ 0 ≤ p.2 ∧ p.2 < (g.dimY : ℤ)) ∧
      (rasterizeObstacles g obstacles).originX = g.originX ∧
      (rasterizeObstacles g obstacles).originY = g.originY ∧
      (rasterizeObstacles g obstacles).cellWidth = g.cellWidth ∧
      (rasterizeObstacles g obstacles).cellHeight = g.cellHeight ∧
      (rasterizeObstacles g obstacles).dimX = g.dimX ∧
      (rasterizeObstacles g obstacles).dimY = g.dimY ∧
      ∀ c, (rasterizeObstacles g obstacles).cells c = g.cells c ∨
        ((rasterizeObstacles g obstacles).cells c =
            { g.cells c with distanceToObstacle := 0 } ∧
          c ∈ rasterizeObstaclesFills g obstacles) := by
  obtain ⟨f1, f2, f3, f4, f5, f6⟩ :=
    applyFills_fields (rasterizeObstaclesFills g obstacles) g
  exact ⟨fun p hp => rasterizeObstaclesFills_bounds g obstacles hx hy p hp,
    f1, f2, f3, f4, f5, f6,
    fun c => applyFills_cells (rasterizeObstaclesFills g obstacles) g c⟩

theorem c4_rasterize_amended_witness :
    1 ≤ unitGrid.dimX ∧ 1 ≤ unitGrid.dimY ∧
      ∀ p ∈ rasterizeObstaclesFills unitGrid [],
        0 ≤ p.1 ∧ p.1 < (unitGrid.dimX : ℤ) ∧ 0 ≤ p.2 ∧
          p.2 < (unitGrid.dimY : ℤ) :=
  ⟨by decide, by decide,
    (c4_rasterize_amended unitGrid [] (by decide) (by decide)).1⟩

/-- An axis-aligned rectangle `[x0, x1] x [y0, y1]` given counterclockwise
from the bottom-left corner, as `fillPolygon` receives it. -/
def thinRect (x0 x1 y0 y1 : ℚ) : List GridPoint :=
  [⟨x0, y0⟩, ⟨x1, y0⟩, ⟨x1, y1⟩, ⟨x0, y1⟩]

theorem thinRect_scanYNodes (x0 x1 y0 y1 cy : ℚ) (hy0 : y0 < cy)
    (hy1 : cy < y1) :
    scanYNodes (thinRect x0 x1 y0 y1) cy = [jsRound x0, jsRound x1] := by
  have hc0 : scanYNodeCond cy ⟨x0, y0⟩ ⟨x0, y1⟩ := Or.inl ⟨hy0.le, hy1⟩
  have hc1 : ¬ scanYNodeCond cy ⟨x1, y0⟩ ⟨x0, y0⟩ := by
    rintro (⟨h1, h2⟩ | ⟨h1, h2⟩)
    · exact absurd h2 (not_lt.mpr hy0.le)
    · exact absurd hy0 (not_lt.mpr h2)
  have hc2 : scanYNodeCond cy ⟨x1, y1⟩ ⟨x1, y0⟩ := Or.inr ⟨hy0, hy1.le⟩
  have hc3 : ¬ scanYNodeCond cy ⟨x0, y1⟩ ⟨x1, y1⟩ := by
    rintro (⟨h1, h2⟩ | ⟨h1, h2⟩)
    · exact absurd hy1 (not_lt.mpr h1)
    · exact absurd h1 (not_lt.mpr hy1.le)
  norm_num [scanYNodes, thinRect, List.range_succ, List.filterMap_cons,
    List.getD, hc0, hc1, hc2, hc3]

theorem bubbleSort_pair (a b : ℤ) (h : a ≤ b) : bubbleSort [a, b] = [a, b] := by
  rw [bubbleSort_eq_go]
  rw [bubbleSortGo]
  have h1 : (0 : ℕ) < [a, b].length - 1 := by norm_num
  rw [dif_pos h1]
  have h2 : ¬([a, b].getD (0 + 1) 0 < [a, b].getD 0 0) := by
    show ¬(b < a)
    exact not_lt.mpr h
  rw [dif_neg h2]
  rw [bubbleSortGo]
  rw [dif_neg (by norm_num : ¬((1 : ℕ) < [a, b].length - 1))]

theorem intRange_self_succ (a : ℤ) : intRange a (a + 1) = [a] := by
  unfold intRange
  norm_num [List.range_succ]

theorem applyFills_cells_not_mem :
    ∀ (fills : List (ℤ × ℤ)) (g : RastGrid) (c : ℤ × ℤ), c ∉ fills →
      (applyFills g fills).cells c = g.cells c := by
  intro fills
  induction fills with
  | nil => intro g c _; rfl
  | cons f fs ih =>
    intro g c hc
    rw [applyFills_cons,
      ih (fillStep g f) c (fun h => hc (List.mem_cons.mpr (Or.inr h))),
      fillStep_cells, if_neg (fun h => hc (List.mem_cons.mpr (Or.inl h)))]

theorem applyFills_cells_mem :
    ∀ (fills : List (ℤ × ℤ)) (g : RastGrid) (c : ℤ × ℤ), c ∈ fills →
      (applyFills g fills).cells c =
        { g.cells c with distanceToObstacle := 0 } := by
  intro fills
  induction fills with
  | nil => intro g c hc; cases hc
  | cons f fs ih =>
    intro g c hc
    rw [applyFills_cons]
    by_cases hcf : c ∈ fs
    · rw [ih (fillStep g f) c hcf, fillStep_cells]
      by_cases hce : c = f
      · rw [if_pos hce]
      · rw [if_neg hce]
    · have hce : c = f := by
        rcases List.mem_cons.mp hc with h | h
        · exact h
        · exact absurd h hcf
      subst hce
      rw [applyFills_cells_not_mem fs (fillStep g c) c hcf, fillStep_cells,
        if_pos rfl]

theorem thinRect_fill (x0 x1 y0 y1 : ℚ) (i j minX maxX minY maxY : ℤ)
    (hx0 : x0 < (i : ℚ) + 1 / 2) (hx1 : (i : ℚ) + 1 / 2 < x1)
    (hthin : x1 < x0 + 1)
    (hy0 : y0 < (j : ℚ) + 1 / 2) (hy1 : (j : ℚ) + 1 / 2 < y1)
    (hA : minX ≤ i) (hB : i < maxX) (hC : minY ≤ j) (hD : j < maxY) :
    (i, j) ∈ fillPolygonFills (thinRect x0 x1 y0 y1) minX maxX minY maxY := by
  have hr0 : jsRound x0 = i := by
    rw [jsRound, Int.floor_eq_iff]
    constructor
    · linarith
    · linarith
  have hr1 : jsRound x1 = i + 1 := by
    rw [jsRound, Int.floor_eq_iff]
    constructor
    · push_cast
      linarith
    · push_cast
      linarith
  have hmemp1 : (i, j) ∈ scanYPass1Fills (thinRect x0 x1 y0 y1)
      minX maxX minY maxY := by
    unfold scanYPass1Fills
    rw [List.mem_flatMap]
    refine ⟨j, (mem_intRange j minY maxY).mpr ⟨hC, hD⟩, ?_⟩
    show (i, j) ∈ (nodePairs minX maxX
        (bubbleSort (scanYNodes (thinRect x0 x1 y0 y1)
          ((j : ℚ) + 1 / 2)))).flatMap
      fun p => (intRange p.1 p.2).map fun x => (x, j)
    rw [thinRect_scanYNodes x0 x1 y0 y1 ((j : ℚ) + 1 / 2) hy0 hy1]
    rw [hr0, hr1, bubbleSort_pair i (i + 1) (by omega)]
    have hcond1 : ¬(maxX ≤ i) := by omega
    have hcond2 : ¬(i + 1 ≤ minX) := by omega
    rw [nodePairs, if_neg hcond1, if_neg hcond2]
    rw [show max i minX = i by omega, show min (i + 1) maxX = i + 1 by omega]
    rw [show nodePairs minX maxX [] = [] from rfl]
    simp only [List.flatMap_cons, List.flatMap_nil, List.append_nil]
    rw [intRange_self_succ]
    simp
  simp only [fillPolygonFills]
  rw [if_neg (List.ne_nil_of_mem hmemp1)]
  exact hmemp1

/-- A 2 x 2 grid with origin 0 and unit cells. -/
def gTri : RastGrid := ⟨0, 0, 1, 1, 2, 2, fun _ => default⟩

/-- A small triangle whose bounding box `[2/5, 3/5] x [1/2, 4/5]` contains
the center `(1/2, 1/2)` of cell `(0, 0)`, yet which `fillPolygon` never
fills: each scan row and column crosses it in a single node (the other edges
only touch the scan line), and a single node forms no pair. -/
def triEx : List GridPoint := [⟨2/5, 1/2⟩, ⟨3/5, 1/2⟩, ⟨1/2, 4/5⟩]

/-- C2 counterexample: the grid-space bounding box of the triangle `triEx`
contains the cell center `(1/2, 1/2) = (0 + 1/2, 0 + 1/2)` of the in-bounds
cell `(0, 0)` of the 2 x 2 grid `gTri`, yet `rasterizeObstacles` records no
fill at all and leaves the grid unchanged, refuting the claimed guarantee
that a polygon whose bounding box meets a cell center marks at least one
cell. -/
theorem c2_conservative_counterexample :
    (bboxMinX (triEx.map (convertToGridBasis gTri)) ≤ 1 / 2 ∧
        1 / 2 ≤ bboxMaxX (triEx.map (convertToGridBasis gTri)) ∧
        bboxMinY (triEx.map (convertToGridBasis gTri)) ≤ 1 / 2 ∧
        1 / 2 ≤ bboxMaxY (triEx.map (convertToGridBasis gTri))) ∧
      rasterizeObstaclesFills gTri [triEx] = [] ∧
      rasterizeObstacles gTri [triEx] = gTri := by
  have hconv : triEx.map (convertToGridBasis gTri) = triEx := by
    norm_num [triEx, convertToGridBasis, gTri]
  have hminx : bboxMinX triEx = 2 / 5 := by
    norm_num [bboxMinX, triEx, qNumberMaxValue, NUMBER_MAX_VALUE, min_def]
  have hmaxx : bboxMaxX triEx = 3 / 5 := by
    norm_num [bboxMaxX, triEx, qNumberMaxValue, NUMBER_MAX_VALUE, max_def]
  have hminy : bboxMinY triEx = 1 / 2 := by
    norm_num [bboxMinY, triEx, qNumberMaxValue, NUMBER_MAX_VALUE, min_def]
  have hmaxy : bboxMaxY triEx = 4 / 5 := by
    norm_num [bboxMaxY, triEx, qNumberMaxValue, NUMBER_MAX_VALUE, max_def]
  have hfl : (max ⌊(2 / 5 : ℚ)⌋ 0 : ℤ) = 0 := by norm_num
  have hceil35 : (⌈(3 / 5 : ℚ)⌉ : ℤ) = 1 := by
    rw [Int.ceil_eq_iff]; norm_num
  have hfr : (min ⌈(3 / 5 : ℚ)⌉ (gTri.dimX : ℤ) : ℤ) = 1 := by
    rw [hceil35]; norm_num [gTri]
  have hft : (max ⌊(1 / 2 : ℚ)⌋ 0 : ℤ) = 0 := by norm_num
  have hceil45 : (⌈(4 / 5 : ℚ)⌉ : ℤ) = 1 := by
    rw [Int.ceil_eq_iff]; norm_num
  have hfb : (min ⌈(4 / 5 : ℚ)⌉ (gTri.dimY : ℤ) : ℤ) = 1 := by
    rw [hceil45]; norm_num [gTri]
  have hrange01 : intRange 0 1 = [0] := by
    norm_num [intRange, List.range_succ]
  have hynodes : scanYNodes triEx (((0 : ℤ) : ℚ) + 1 / 2) = [0] := by
    norm_num [scanYNodes, triEx, List.range_succ, List.filterMap_cons,
      List.getD, scanYNodeCond, jsRound]
  have hxnodes : scanXNodes triEx (((0 : ℤ) : ℚ) + 1 / 2) = [1] := by
    norm_num [scanXNodes, triEx, List.range_succ, List.filterMap_cons,
      List.getD, scanXNodeCond, jsRound]
  have hsortY : bubbleSort [(0 : ℤ)] = [0] := by decide
  have hsortX : bubbleSort [(1 : ℤ)] = [1] := by decide
  have hpairs0 : nodePairs 0 1 [(0 : ℤ)] = [] := by decide
  have hpairs1 : nodePairs 0 1 [(1 : ℤ)] = [] := by decide
  have hpass1 : scanYPass1Fills triEx 0 1 0 1 = [] := by
    rw [scanYPass1Fills, hrange01]
    simp only [List.flatMap_cons, List.flatMap_nil, List.append_nil,
      hynodes, hsortY, hpairs0]
  have hthin : scanYThinFills triEx 0 1 0 1 = [] := by
    rw [scanYThinFills, hrange01]
    simp only [List.flatMap_cons, List.flatMap_nil, List.append_nil,
      hynodes, hsortY, hpairs0]
  have hscanx : scanXFills triEx 0 1 0 1 = [] := by
    rw [scanXFills, hrange01]
    simp only [List.flatMap_cons, List.flatMap_nil, List.append_nil,
      hxnodes, hsortX, hpairs1]
  have hfills : rasterizeObstaclesFills gTri [triEx] = [] := by
    rw [rasterizeObstaclesFills]
    simp only [List.flatMap_cons, List.flatMap_nil, List.append_nil, hconv]
    rw [hminx, hmaxx, hminy, hmaxy, hfl, hfr, hft, hfb]
    simp only [fillPolygonFills]
    rw [hpass1, if_pos rfl, hthin, hscanx]
    rfl
  refine ⟨?_, hfills, ?_⟩
  · rw [hconv, hminx, hmaxx, hminy, hmaxy]
    norm_num
  · rw [rasterizeObstacles, hfills]
    rfl

/-- C2 (amended): on a grid with origin 0 and unit cells, every thin
axis-aligned rectangle narrower than one cell whose horizontal extent
straddles the center abscissa `i + 1/2` of an in-bounds column `i` and whose
vertical extent contains the center ordinate `j + 1/2` of an in-bounds row
`j` gets cell `(i, j)` marked as obstacle (`distanceToObstacle = 0`): its two
scan nodes round to `i` and `i + 1`, so the first scanY pass itself fills
`(i, j)`. (The broader claimed guarantee - any polygon whose bounding box
meets a cell center marks at least one cell - is refuted by
`c2_conservative_counterexample`.) -/
theorem c2_thin_rect_amended (g : RastGrid) (x0 x1 y0 y1 : ℚ) (i j : ℤ)
    (hg1 : g.originX = 0) (hg2 : g.originY = 0) (hg3 : g.cellWidth = 1)
    (hg4 : g.cellHeight = 1)
    (hi0 : 0 ≤ i) (hiX : i < (g.dimX : ℤ)) (hj0 : 0 ≤ j)
    (hjY : j < (g.dimY : ℤ))
    (hx0 : x0 < (i : ℚ) + 1 / 2) (hx1 : (i : ℚ) + 1 / 2 < x1)
    (hthin : x1 < x0 + 1)
    (hy0 : y0 < (j : ℚ) + 1 / 2) (hy1 : (j : ℚ) + 1 / 2 < y1) :
    (i, j) ∈ rasterizeObstaclesFills g [thinRect x0 x1 y0 y1] ∧
      ((rasterizeObstacles g
          [thinRect x0 x1 y0 y1]).cells (i, j)).distanceToObstacle = 0 := by
  have hconv : (thinRect x0 x1 y0 y1).map (convertToGridBasis g) =
      thinRect x0 x1 y0 y1 := by
    simp [thinRect, convertToGridBasis, hg1, hg2, hg3, hg4]
  have hA : max ⌊bboxMinX (thinRect x0 x1 y0 y1)⌋ 0 ≤ i := by
    have hb : bboxMinX (thinRect x0 x1 y0 y1) ≤ x0 :=
      bboxMinX_le _ ⟨x0, y0⟩ (by simp [thinRect])
    have hf : ⌊bboxMinX (thinRect x0 x1 y0 y1)⌋ ≤ i :=
      Int.floor_le_iff.mpr (by linarith)
    omega
  have hB : i < min ⌈bboxMaxX (thinRect x0 x1 y0 y1)⌉ (g.dimX : ℤ) := by
    have hb : x1 ≤ bboxMaxX (thinRect x0 x1 y0 y1) :=
      le_bboxMaxX _ ⟨x1, y0⟩ (by simp [thinRect])
    have hf : i < ⌈bboxMaxX (thinRect x0 x1 y0 y1)⌉ :=
      Int.lt_ceil.mpr (by linarith)
    omega
  have hC : max ⌊bboxMinY (thinRect x0 x1 y0 y1)⌋ 0 ≤ j := by
    have hb : bboxMinY (thinRect x0 x1 y0 y1) ≤ y0 :=
      bboxMinY_le _ ⟨x0, y0⟩ (by simp [thinRect])
    have hf : ⌊bboxMinY (thinRect x0 x1 y0 y1)⌋ ≤ j :=
      Int.floor_le_iff.mpr (by linarith)
    omega
  have hD : j < min ⌈bboxMaxY (thinRect x0 x1 y0 y1)⌉ (g.dimY : ℤ) := by
    have hb : y1 ≤ bboxMaxY (thinRect x0 x1 y0 y1) :=
      le_bboxMaxY _ ⟨x0, y1⟩ (by simp [thinRect])
    have hf : j < ⌈bboxMaxY (thinRect x0 x1 y0 y1)⌉ :=
      Int.lt_ceil.mpr (by linarith)
    omega
  have hmem : (i, j) ∈ rasterizeObstaclesFills g [thinRect x0 x1 y0 y1] := by
    rw [rasterizeObstaclesFills]
    simp only [List.flatMap_cons, List.flatMap_nil, List.append_nil, hconv]
    exact thinRect_fill x0 x1 y0 y1 i j _ _ _ _ hx0 hx1 hthin hy0 hy1
      hA hB hC hD
  refine ⟨hmem, ?_⟩
  rw [rasterizeObstacles,
    applyFills_cells_mem (rasterizeObstaclesFills g [thinRect x0 x1 y0 y1])
      g (i, j) hmem]

theorem c2_thin_rect_amended_witness :
    (unitGrid.originX = 0 ∧ unitGrid.originY = 0 ∧ unitGrid.cellWidth = 1 ∧
        unitGrid.cellHeight = 1 ∧ (0 : ℤ) ≤ 0 ∧
        (0 : ℤ) < (unitGrid.dimX : ℤ) ∧ (0 : ℤ) < (unitGrid.dimY : ℤ) ∧
        (2 / 5 : ℚ) < ((0 : ℤ) : ℚ) + 1 / 2 ∧
        ((0 : ℤ) : ℚ) + 1 / 2 < 3 / 5 ∧ (3 / 5 : ℚ) < 2 / 5 + 1 ∧
        (1 / 4 : ℚ) < ((0 : ℤ) : ℚ) + 1 / 2 ∧
        ((0 : ℤ) : ℚ) + 1 / 2 < 3 / 4) ∧
      ((0, 0) ∈ rasterizeObstaclesFills unitGrid
          [thinRect (2 / 5) (3 / 5) (1 / 4) (3 / 4)] ∧
        ((rasterizeObstacles unitGrid
            [thinRect (2 / 5) (3 / 5) (1 / 4)
              (3 / 4)]).cells (0, 0)).distanceToObstacle = 0) :=
  ⟨⟨rfl, rfl, rfl, rfl, by decide, by decide, by decide, by norm_num,
      by norm_num, by norm_num, by norm_num, by norm_num⟩,
    c2_thin_rect_amended unitGrid (2 / 5) (3 / 5) (1 / 4) (3 / 4) 0 0
      rfl rfl rfl rfl (by decide) (by decide) (by decide) (by decide)
      (by norm_num) (by norm_num) (by norm_num) (by norm_num) (by norm_num)⟩

/-- `ConvexPolygonGenerator.getSignedAreaX2` (ConvexPolygonGenerator.ts lines
845-865): `(bx - ax) * (cy - ay) - (cx - ax) * (by - ay)`. -/
def getSignedAreaX2 (ax ay bx byy cx cy : ℤ) : ℤ :=
  (bx - ax) * (cy - ay) - (cx - ax) * (byy - ay)

/-- `isLeft` (lines 744-757). -/
def isLeft (px py ax ay bx byy : ℤ) : Bool :=
  getSignedAreaX2 ax ay px py bx byy < 0

/-- `isLeftOrCollinear` (lines 759-772). -/
def isLeftOrCollinear (px py ax ay bx byy : ℤ) : Bool :=
  getSignedAreaX2 ax ay px py bx byy ≤ 0

/-- `isRight` (lines 774-794). -/
def isRight (px py ax ay bx byy : ℤ) : Bool :=
  0 < getSignedAreaX2 ax ay px py bx byy

/-- `isRightOrCollinear` (lines 796-817). -/
def isRightOrCollinear (px py ax ay bx byy : ℤ) : Bool :=
  0 ≤ getSignedAreaX2 ax ay px py bx byy

/-- `Geometry.segmentsIntersect` (Geometry.ts lines 21-71). The source
computes `factorAB = numerator / denominator` and
`factorCD = numerator2 / denominator` by float division and tests
`0 <= factor <= 1` on both; when the denominator is zero it either returns
`false` explicitly (parallel case) or both factors are `NaN` and every
comparison is false, so every zero-denominator path returns `false`. The
unit-interval tests are stated here by sign analysis on the integers, with
no division; `segmentsIntersect_eq_div` proves this form equivalent to the
literal division-based form `segmentsIntersectQ`. -/
def segmentsIntersect (ax ay bx byy cx cy dx dy : ℤ) : Bool :=
  let numerator := (ay - cy) * (dx - cx) - (ax - cx) * (dy - cy)
  let denominator := (bx - ax) * (dy - cy) - (byy - ay) * (dx - cx)
  let numerator2 := (ay - cy) * (bx - ax) - (ax - cx) * (byy - ay)
  if denominator = 0 then false
  else if 0 < denominator then
    0 ≤ numerator ∧ numerator ≤ denominator ∧
      0 ≤ numerator2 ∧ numerator2 ≤ denominator
  else
    numerator ≤ 0 ∧ denominator ≤ numerator ∧
      numerator2 ≤ 0 ∧ denominator ≤ numerator2

/-- `Geometry.segmentsIntersect` written exactly as the source computes it:
rational division and unit-interval tests on the quotients (`False` on the
zero-denominator paths, where JS produces `false` via the parallel guard or
`NaN` comparisons). -/
def segmentsIntersectQ (ax ay bx byy cx cy dx dy : ℤ) : Prop :=
  let numerator := (ay - cy) * (dx - cx) - (ax - cx) * (dy - cy)
  let denominator := (bx - ax) * (dy - cy) - (byy - ay) * (dx - cx)
  let numerator2 := (ay - cy) * (bx - ax) - (ax - cx) * (byy - ay)
  if denominator = 0 then False
  else
    0 ≤ (numerator : ℚ) / (denominator : ℚ) ∧
      (numerator : ℚ) / (denominator : ℚ) ≤ 1 ∧
      0 ≤ (numerator2 : ℚ) / (denominator : ℚ) ∧
      (numerator2 : ℚ) / (denominator : ℚ) ≤ 1

theorem div_unit_iff (num den : ℤ) (h : den ≠ 0) :
    (0 ≤ (num : ℚ) / (den : ℚ) ∧ (num : ℚ) / (den : ℚ) ≤ 1) ↔
      (if 0 < den then 0 ≤ num ∧ num ≤ den else num ≤ 0 ∧ den ≤ num) := by
  rcases lt_or_gt_of_ne h with hneg | hpos
  · rw [if_neg (by omega)]
    have hq : ((den : ℤ) : ℚ) < 0 := by exact_mod_cast hneg
    rw [le_div_iff_of_neg hq, div_le_iff_of_neg hq, zero_mul, one_mul]
    exact ⟨fun h2 => ⟨by exact_mod_cast h2.1, by exact_mod_cast h2.2⟩,
      fun h2 => ⟨by exact_mod_cast h2.1, by exact_mod_cast h2.2⟩⟩
  · rw [if_pos hpos]
    have hq : (0 : ℚ) < ((den : ℤ) : ℚ) := by exact_mod_cast hpos
    rw [le_div_iff₀ hq, div_le_one hq, zero_mul]
    exact ⟨fun h2 => ⟨by exact_mod_cast h2.1, by exact_mod_cast h2.2⟩,
      fun h2 => ⟨by exact_mod_cast h2.1, by exact_mod_cast h2.2⟩⟩

theorem segmentsIntersect_eq_div (ax ay bx byy cx cy dx dy : ℤ) :
    segmentsIntersect ax ay bx byy cx cy dx dy = true ↔
      segmentsIntersectQ ax ay bx byy cx cy dx dy := by
  unfold segmentsIntersect segmentsIntersectQ
  by_cases hden : (bx - ax) * (dy - cy) - (byy - ay) * (dx - cx) = 0
  · simp [hden]
  · rw [if_neg hden, if_neg hden]
    have h1 := div_unit_iff ((ay - cy) * (dx - cx) - (ax - cx) * (dy - cy))
      ((bx - ax) * (dy - cy) - (byy - ay) * (dx - cx)) hden
    have h2 := div_unit_iff ((ay - cy) * (bx - ax) - (ax - cx) * (byy - ay))
      ((bx - ax) * (dy - cy) - (byy - ay) * (dx - cx)) hden
    by_cases hpos : 0 < (bx - ax) * (dy - cy) - (byy - ay) * (dx - cx)
    · rw [if_pos hpos]
      rw [if_pos hpos] at h1 h2
      simp only [decide_eq_true_eq]
      tauto
    · rw [if_neg hpos]
      rw [if_neg hpos] at h1 h2
      simp only [decide_eq_true_eq]
      tauto

/-- A polygon vertex as `ConvexPolygonGenerator` manipulates it: the
coordinates plus the identity of the underlying JS object (vertices of one
contour are distinct objects, so `===` between points of the same contour is
index equality). -/
structure IPt where
  idx : ℕ
  x : ℤ
  y : ℤ
deriving Repr, DecidableEq

instance : Inhabited IPt := ⟨⟨0, 0, 0⟩⟩

/-- The vertex objects of one contour, numbered by position. -/
def indexPts (c : List (ℤ × ℤ)) : List IPt :=
  (List.range c.length).map fun i =>
    ⟨i, (c.getD i (0, 0)).1, (c.getD i (0, 0)).2⟩

/-- `liesWithinInternalAngle` (ConvexPolygonGenerator.ts lines 565-644). -/
def liesWithinInternalAngle (indexA indexB : ℕ) (vertices : List IPt) :
    Bool :=
  let n := vertices.length
  let vertexA := vertices.getD indexA default
  let vertexB := vertices.getD indexB default
  let vertexAMinus := vertices.getD ((indexA + n - 1) % n) default
  let vertexAPlus := vertices.getD ((indexA + 1) % n) default
  if isLeftOrCollinear vertexA.x vertexA.y vertexAMinus.x vertexAMinus.y
      vertexAPlus.x vertexAPlus.y then
    isLeft vertexB.x vertexB.y vertexA.x vertexA.y vertexAMinus.x
        vertexAMinus.y &&
      isRight vertexB.x vertexB.y vertexA.x vertexA.y vertexAPlus.x
        vertexAPlus.y
  else
    !(isLeftOrCollinear vertexB.x vertexB.y vertexA.x vertexA.y vertexAPlus.x
        vertexAPlus.y &&
      isRightOrCollinear vertexB.x vertexB.y vertexA.x vertexA.y
        vertexAMinus.x vertexAMinus.y)

/-- `hasIllegalEdgeIntersection` (ConvexPolygonGenerator.ts lines 665-725). -/
def hasIllegalEdgeIntersection (indexA indexB : ℕ) (vertices : List IPt) :
    Bool :=
  let n := vertices.length
  let vertexA := vertices.getD indexA default
  let vertexB := vertices.getD indexB default
  (List.range n).any fun edgeBeginIndex =>
    let edgeEndIndex := (edgeBeginIndex + 1) % n
    if edgeBeginIndex = indexA ∨ edgeBeginIndex = indexB ∨
        edgeEndIndex = indexA ∨ edgeEndIndex = indexB then false
    else
      let edgeBegin := vertices.getD edgeBeginIndex default
      let edgeEnd := vertices.getD edgeEndIndex default
      if (edgeBegin.x = vertexA.x ∧ edgeBegin.y = vertexA.y) ∨
          (edgeBegin.x = vertexB.x ∧ edgeBegin.y = vertexB.y) ∨
          (edgeEnd.x = vertexA.x ∧ edgeEnd.y = vertexA.y) ∨
          (edgeEnd.x = vertexB.x ∧ edgeEnd.y = vertexB.y) then false
      else
        segmentsIntersect vertexA.x vertexA.y vertexB.x vertexB.y
          edgeBegin.x edgeBegin.y edgeEnd.x edgeEnd.y

/-- `isValidPartition` (ConvexPolygonGenerator.ts lines 515-537). -/
def isValidPartition (indexA indexB : ℕ) (vertices : List IPt) : Bool :=
  liesWithinInternalAngle indexA indexB vertices &&
    !hasIllegalEdgeIntersection indexA indexB vertices

/-- The `while (vertices.length > 3)` loop of `triangulate`
(ConvexPolygonGenerator.ts lines 404-487), with an explicit fuel counter
(each iteration removes one vertex, so `vertices.length` is ample fuel).
Returns the emitted triangles and whether the loop bailed out with no
flagged vertex left (`minLengthSqVertexIndex === -1`, the failure return
that skips the final triangle). -/
def triangulateLoop :
    ℕ → List IPt → List Bool → List (IPt × IPt × IPt) →
      List (IPt × IPt × IPt) × Bool
  | 0, _, _, tris => (tris, true)
  | fuel + 1, vertices, flags, tris =>
    if vertices.length ≤ 3 then
      (tris ++ [(vertices.getD 0 default, vertices.getD 1 default,
        vertices.getD 2 default)], false)
    else
      let n := vertices.length
      let scan := (List.range n).foldl (fun acc i =>
        if flags.getD ((i + 1) % n) false then
          let vert := vertices.getD i default
          let vertPlus2 := vertices.getD ((i + 2) % n) default
          let lengthSq := (vertPlus2.x - vert.x) * (vertPlus2.x - vert.x) +
            (vertPlus2.y - vert.y) * (vertPlus2.y - vert.y)
          if lengthSq < acc.1 then (lengthSq, some i) else acc
        else acc) ((NUMBER_MAX_VALUE : ℤ), (none : Option ℕ))
      match scan.2 with
      | none => (tris, true)
      | some i =>
        let iPlus1 := (i + 1) % n
        let tri := (vertices.getD i default, vertices.getD iPlus1 default,
          vertices.getD ((i + 2) % n) default)
        let vertices2 := vertices.eraseIdx iPlus1
        let flags2 := flags.eraseIdx iPlus1
        let n2 := vertices2.length
        let i2 := if iPlus1 = 0 ∨ n2 ≤ iPlus1 then n2 - 1 else i
        let iPlus12 := if iPlus1 = 0 ∨ n2 ≤ iPlus1 then 0 else iPlus1
        let flags3 := flags2.set i2
          (isValidPartition ((i2 + n2 - 1) % n2) iPlus12 vertices2)
        let flags4 := flags3.set iPlus12
          (isValidPartition i2 ((i2 + 2) % n2) vertices2)
        triangulateLoop fuel vertices2 flags4 (tris ++ [tri])

/-- `triangulate` (ConvexPolygonGenerator.ts lines 339-489): initialize the
ear flags (`vertexFlags[(i+1) % n] = isValidPartition(i, (i+2) % n, ...)`,
i.e. flag `j` is computed from neighbors `(j-1+n) % n` and `(j+1) % n`),
then run the clipping loop. -/
def triangulate (vertices0 : List IPt) : List (IPt × IPt × IPt) × Bool :=
  let n := vertices0.length
  let flags0 := (List.range n).map fun j =>
    isValidPartition ((j + n - 1) % n) ((j + 1) % n) vertices0
  triangulateLoop n vertices0 flags0 []

/-- `getPolyMergeInfo` (ConvexPolygonGenerator.ts lines 211-324), returning
`(lengthSq, polygonAVertexIndex, polygonBVertexIndex)`. The shared-edge scan
keeps the last matching pair (the source loop has no break); `===` between
vertices of one contour is `idx` equality. -/
def getPolyMergeInfo (polygonA polygonB : List IPt) (maxV : ℕ) :
    ℤ × ℕ × ℕ :=
  let vertexCountA := polygonA.length
  let vertexCountB := polygonB.length
  if (maxV : ℤ) < (vertexCountA : ℤ) + (vertexCountB : ℤ) - 2 then (-1, 0, 0)
  else
    let shared := (List.range vertexCountA).foldl (fun acc indexA =>
      (List.range vertexCountB).foldl (fun acc2 indexB =>
        let vertexA := polygonA.getD indexA default
        let nextVertexA := polygonA.getD ((indexA + 1) % vertexCountA) default
        let vertexB := polygonB.getD indexB default
        let nextVertexB := polygonB.getD ((indexB + 1) % vertexCountB) default
        if vertexA.idx = nextVertexB.idx ∧ nextVertexA.idx = vertexB.idx
        then some (indexA, indexB) else acc2) acc)
      (none : Option (ℕ × ℕ))
    match shared with
    | none => (-1, 0, 0)
    | some (va, vb) =>
      let sharedVertMinus :=
        polygonA.getD ((va + vertexCountA - 1) % vertexCountA) default
      let sharedVert := polygonA.getD va default
      let sharedVertPlus := polygonB.getD ((vb + 2) % vertexCountB) default
      if !(isLeft sharedVert.x sharedVert.y sharedVertMinus.x
          sharedVertMinus.y sharedVertPlus.x sharedVertPlus.y) then
        (-1, va, vb)
      else
        let sharedVertMinus2 :=
          polygonB.getD ((vb + vertexCountB - 1) % vertexCountB) default
        let sharedVert2 := polygonB.getD vb default
        let sharedVertPlus2 :=
          polygonA.getD ((va + 2) % vertexCountA) default
        if !(isLeft sharedVert2.x sharedVert2.y sharedVertMinus2.x
            sharedVertMinus2.y sharedVertPlus2.x sharedVertPlus2.y) then
          (-1, va, vb)
        else
          let v1 := polygonA.getD va default
          let v2 := polygonA.getD ((va + 1) % vertexCountA) default
          ((v1.x - v2.x) * (v1.x - v2.x) + (v1.y - v2.y) * (v1.y - v2.y),
            va, vb)

/-- Accumulator of the best-merge scan of `splitToConvexPolygons`
(ConvexPolygonGenerator.ts lines 118-157). -/
structure MergeAcc where
  lengthSq : ℤ
  ia : ℕ
  va : ℕ
  ib : ℕ
  vb : ℕ
deriving Repr, DecidableEq

/-- The pair scan of one merge-loop iteration (lines 118-161): loop `indexA`
over all but the last polygon, `indexB` over the later polygons, keep the
strictly longest shared edge; after the scan, `longestMergeEdge <= 0`
breaks the loop. -/
def findBestMerge (polys : List (List IPt)) (maxV : ℕ) :
    Option (ℕ × ℕ × ℕ × ℕ) :=
  let n := polys.length
  let best := (List.range (n - 1)).foldl (fun acc indexA =>
    (List.range n).foldl (fun acc2 indexB =>
      if indexA + 1 ≤ indexB then
        let info := getPolyMergeInfo (polys.getD indexA [])
          (polys.getD indexB []) maxV
        if acc2.lengthSq < info.1 then
          ⟨info.1, indexA, info.2.1, indexB, info.2.2⟩
        else acc2
      else acc2) acc)
    (⟨-1, 0, 0, 0, 0⟩ : MergeAcc)
  if best.lengthSq ≤ 0 then none
  else some (best.ia, best.va, best.ib, best.vb)

/-- The merged polygon of one merge (lines 179-190): all but the shared-edge
start vertex of A starting after the shared edge, then the same for B. -/
def mergedPoly (polyA : List IPt) (va : ℕ) (polyB : List IPt) (vb : ℕ) :
    List IPt :=
  ((List.range (polyA.length - 1)).map fun k =>
    polyA.getD ((va + 1 + k) % polyA.length) default) ++
  ((List.range (polyB.length - 1)).map fun k =>
    polyB.getD ((vb + 1 + k) % polyB.length) default)

/-- The `while (true)` merge loop (lines 117-197) with fuel (each merge
removes one polygon): find the best pair, stop when none, else overwrite
polygon A in place and splice polygon B out. -/
def mergeLoop (maxV : ℕ) : ℕ → List (List IPt) → List (List IPt)
  | 0, polys => polys
  | fuel + 1, polys =>
    match findBestMerge polys maxV with
    | none => polys
    | some (ia, va, ib, vb) =>
      let polyA := polys.getD ia []
      let polyB := polys.getD ib []
      mergeLoop maxV fuel ((polys.set ia (mergedPoly polyA va polyB vb)).eraseIdx ib)

/-- `splitToConvexPolygons` (ConvexPolygonGenerator.ts lines 37-208) as the
pair (output polygons, number of `console.error` failure logs): contours
with fewer than 3 vertices are skipped silently; a contour whose
triangulation emits no triangle is logged and skipped; otherwise the
triangles (merged when `maxVerticesPerPolygon > 3`) are appended to the
output - even when the triangulation bailed out partway. -/
def splitToConvexPolygons :
    List (List (ℤ × ℤ)) → ℕ → List (List IPt) × ℕ
  | [], _ => ([], 0)
  | c :: rest, maxV =>
    let r := splitToConvexPolygons rest maxV
    if c.length < 3 then r
    else
      let tris := (triangulate (indexPts c)).1
      if tris = [] then (r.1, r.2 + 1)
      else
        let polys := tris.map fun t => [t.1, t.2.1, t.2.2]
        let merged := if 3 < maxV then mergeLoop maxV polys.length polys
          else polys
        (merged ++ r.1, r.2)

/-- C5 counterexample: on the contour `[(0,0),(0,1),(0,3),(0,2),(1,3)]`
ear-clipping emits one triangle and then bails out stuck (4 vertices remain,
none flagged as a valid ear), yet `splitToConvexPolygons` keeps the partial
triangle in its output and logs nothing - the failure is neither logged nor
does it make the contour contribute no polygons. -/
theorem c5_partial_failure_counterexample :
    (triangulate (indexPts [(0, 0), (0, 1), (0, 3), (0, 2), (1, 3)])).2 =
        true ∧
      (triangulate
        (indexPts [(0, 0), (0, 1), (0, 3), (0, 2), (1, 3)])).1.length = 1 ∧
      splitToConvexPolygons [[(0, 0), (0, 1), (0, 3), (0, 2), (1, 3)]] 16 =
        ([[⟨3, 0, 2⟩, ⟨4, 1, 3⟩, ⟨0, 0, 0⟩]], 0) := by
  decide

/-- C5 (amended): `splitToConvexPolygons` logs and skips a contour of at
least 3 vertices exactly when its triangulation emitted no triangle at all;
when ear-clipping fails after emitting at least one triangle, the partial
triangles are merged and appended to the output and nothing is logged. -/
theorem c5_failure_amended (c : List (ℤ × ℤ)) (rest : List (List (ℤ × ℤ)))
    (maxV : ℕ) (h3 : 3 ≤ c.length) :
    ((triangulate (indexPts c)).1 = [] →
      splitToConvexPolygons (c :: rest) maxV =
        ((splitToConvexPolygons rest maxV).1,
          (splitToConvexPolygons rest maxV).2 + 1)) ∧
      ((triangulate (indexPts c)).1 ≠ [] →
        (splitToConvexPolygons (c :: rest) maxV).1 =
          (if 3 < maxV then
            mergeLoop maxV
              ((triangulate (indexPts c)).1.map fun t =>
                [t.1, t.2.1, t.2.2]).length
              ((triangulate (indexPts c)).1.map fun t => [t.1, t.2.1, t.2.2])
          else
            (triangulate (indexPts c)).1.map fun t =>
              [t.1, t.2.1, t.2.2]) ++
            (splitToConvexPolygons rest maxV).1 ∧
        (splitToConvexPolygons (c :: rest) maxV).2 =
          (splitToConvexPolygons rest maxV).2) := by
  constructor
  · intro htris
    simp only [splitToConvexPolygons]
    rw [if_neg (by omega), if_pos htris]
  · intro htris
    simp only [splitToConvexPolygons]
    rw [if_neg (by omega), if_neg htris]
    exact ⟨rfl, rfl⟩

theorem c5_failure_amended_witness :
    3 ≤ ([(0, 0), (1, 0), (1, 1), (0, 1)] : List (ℤ × ℤ)).length ∧
      splitToConvexPolygons [[(0, 0), (1, 0), (1, 1), (0, 1)]] 16 =
        ((splitToConvexPolygons [] 16).1,
          (splitToConvexPolygons [] 16).2 + 1) :=
  ⟨by decide,
    (c5_failure_amended [(0, 0), (1, 0), (1, 1), (0, 1)] [] 16
      (by decide)).1 (by decide)⟩

theorem getD_eraseIdx_lt {α : Type} (l : List α) (i k : ℕ) (d : α)
    (h : k < i) : (l.eraseIdx i).getD k d = l.getD k d := by
  induction l generalizing i k with
  | nil => rfl
  | cons a l ih =>
    cases i with
    | zero => omega
    | succ i2 =>
      cases k with
      | zero => simp [List.eraseIdx_cons_succ, List.getD_cons_zero]
      | succ k2 =>
        simp only [List.eraseIdx_cons_succ, List.getD_cons_succ]
        exact ih i2 k2 (by omega)

theorem getD_eraseIdx_ge {α : Type} (l : List α) (i k : ℕ) (d : α)
    (hi : i < l.length) (h : i ≤ k) :
    (l.eraseIdx i).getD k d = l.getD (k + 1) d := by
  induction l generalizing i k with
  | nil => simp at hi
  | cons a l ih =>
    cases i with
    | zero =>
      simp only [List.eraseIdx_cons_zero, List.getD_cons_succ]
    | succ i2 =>
      cases k with
      | zero => omega
      | succ k2 =>
        simp only [List.eraseIdx_cons_succ, List.getD_cons_succ]
        exact ih i2 k2 (by simpa using hi) (by omega)

/-- The duplicate-removal loop run on every contour at the end of
`ContourBuilder.buildContours` (ContourBuilder.ts lines 440-450): compare
each vertex with its cyclic successor; on equal coordinates splice the
successor out and stay at the same index (`vertexIndex--` compensating the
loop increment), else advance. -/
def dedupGo (contour : List ContourPoint) (vertexIndex : ℕ) :
    List ContourPoint :=
  if h : vertexIndex < contour.length then
    if (contour.getD vertexIndex default).x =
        (contour.getD ((vertexIndex + 1) % contour.length) default).x ∧
        (contour.getD vertexIndex default).y =
        (contour.getD ((vertexIndex + 1) % contour.length) default).y then
      dedupGo (contour.eraseIdx ((vertexIndex + 1) % contour.length))
        vertexIndex
    else
      dedupGo contour (vertexIndex + 1)
  else contour
termination_by contour.length + (contour.length - vertexIndex)
decreasing_by
  · have hlt : (vertexIndex + 1) % contour.length < contour.length :=
      Nat.mod_lt _ (by omega)
    rw [List.length_eraseIdx, if_pos hlt]
    omega
  · omega

/-- The cleanup pass itself: run the loop from index 0. -/
def removeIdenticalVertices (contour : List ContourPoint) :
    List ContourPoint :=
  dedupGo contour 0

/-- The cyclically-consecutive pair at `k` has distinct coordinates. -/
def pairNe (l : List ContourPoint) (k : ℕ) : Prop :=
  ¬((l.getD k default).x = (l.getD ((k + 1) % l.length) default).x ∧
    (l.getD k default).y = (l.getD ((k + 1) % l.length) default).y)

/-- No two cyclically consecutive vertices share both coordinates. -/
def noCyclicDup (l : List ContourPoint) : Prop :=
  ∀ k, k < l.length → pairNe l k

theorem dedupGo_noCyclicDup (contour : List ContourPoint)
    (vertexIndex : ℕ) :
    (∀ k, k < vertexIndex → k < contour.length → pairNe contour k) →
      noCyclicDup (dedupGo contour vertexIndex) := by
  induction contour, vertexIndex using dedupGo.induct with
  | case1 contour vi h hcond ih =>
    intro hinv
    rw [dedupGo, dif_pos h, if_pos hcond]
    apply ih
    intro k hk hklen
    by_cases hwrap : vi + 1 = contour.length
    · have hni : (vi + 1) % contour.length = 0 := by
        rw [hwrap]
        exact Nat.mod_self _
      rw [hni] at hklen ⊢
      have hlen' : (contour.eraseIdx 0).length = contour.length - 1 := by
        rw [List.length_eraseIdx, if_pos (by omega)]
      rw [hlen'] at hklen
      have hget : ∀ j, (contour.eraseIdx 0).getD j default =
          contour.getD (j + 1) default :=
        fun j => getD_eraseIdx_ge contour 0 j default (by omega) (by omega)
      unfold pairNe
      rw [hlen', hget k]
      by_cases hk2 : k + 1 < contour.length - 1
      · rw [Nat.mod_eq_of_lt hk2, hget (k + 1)]
        have hold := hinv (k + 1) (by omega) (by omega)
        unfold pairNe at hold
        rw [Nat.mod_eq_of_lt (by omega)] at hold
        exact hold
      · have hk3 : k + 1 = contour.length - 1 := by omega
        rw [show (k + 1) % (contour.length - 1) = 0 from by
          rw [hk3]; exact Nat.mod_self _]
        rw [hget 0]
        have hvi1 : k + 1 = vi := by omega
        rw [hvi1]
        have h0 := hinv 0 (by omega) (by omega)
        unfold pairNe at h0
        rw [Nat.mod_eq_of_lt (show 0 + 1 < contour.length by omega)] at h0
        have hvc := hcond
        rw [show (vi + 1) % contour.length = 0 from by
          rw [hwrap]; exact Nat.mod_self _] at hvc
        intro hcontra
        exact h0 ⟨hvc.1.symm.trans hcontra.1, hvc.2.symm.trans hcontra.2⟩
    · have hni : (vi + 1) % contour.length = vi + 1 :=
        Nat.mod_eq_of_lt (by omega)
      rw [hni] at hklen ⊢
      have hlen' : (contour.eraseIdx (vi + 1)).length =
          contour.length - 1 := by
        rw [List.length_eraseIdx, if_pos (by omega)]
      rw [hlen'] at hklen
      unfold pairNe
      rw [hlen']
      rw [getD_eraseIdx_lt contour (vi + 1) k default (by omega)]
      rw [Nat.mod_eq_of_lt (show k + 1 < contour.length - 1 by omega)]
      rw [getD_eraseIdx_lt contour (vi + 1) (k + 1) default (by omega)]
      have hold := hinv k hk (by omega)
      unfold pairNe at hold
      rw [Nat.mod_eq_of_lt (by omega)] at hold
      exact hold
  | case2 contour vi h hcond ih =>
    intro hinv
    rw [dedupGo, dif_pos h, if_neg hcond]
    apply ih
    intro k hk hklen
    rcases Nat.lt_or_ge k vi with hlt | hge
    · exact hinv k hlt hklen
    · have hk_eq : k = vi := by omega
      subst hk_eq
      exact hcond
  | case3 contour vi h =>
    intro hinv
    rw [dedupGo, dif_neg h]
    intro k hklen
    exact hinv k (by omega) hklen

/-- C7: (1) after the duplicate-removal pass that ends
`ContourBuilder.buildContours`, no contour contains two cyclically
consecutive vertices with equal coordinates; (2) `splitToConvexPolygons`
skips every contour with fewer than 3 vertices with no output polygon and
no log (silently dropped). -/
theorem c7_dedup_and_silent_skip :
    (∀ contour : List ContourPoint,
        noCyclicDup (removeIdenticalVertices contour)) ∧
      ∀ (c : List (ℤ × ℤ)) (rest : List (List (ℤ × ℤ))) (maxV : ℕ),
        c.length < 3 →
        splitToConvexPolygons (c :: rest) maxV =
          splitToConvexPolygons rest maxV := by
  constructor
  · intro contour
    exact dedupGo_noCyclicDup contour 0
      (fun k hk _ => absurd hk (by omega))
  · intro c rest maxV hc
    simp only [splitToConvexPolygons]
    rw [if_pos hc]

theorem c7_dedup_and_silent_skip_witness :
    ([(0, 0)] : List (ℤ × ℤ)).length < 3 ∧
      splitToConvexPolygons [[(0, 0)]] 16 = splitToConvexPolygons [] 16 :=
  ⟨by decide, c7_dedup_and_silent_skip.2 [(0, 0)] [] 16 (by decide)⟩

/-- A world-space `Point` object allocated by the grid coordinate
converter. -/
structure WPoint where
  x : ℚ
  y : ℚ
deriving Repr, DecidableEq

instance : Inhabited WPoint := ⟨⟨0, 0⟩⟩

/-- `RasterizationGrid.convertFromGridBasis` (RasterizationGrid.ts lines
82-86): the value written into the freshly allocated `position` object. -/
def convertFromGridBasisVal (originX originY cellWidth cellHeight : ℚ)
    (p : GridPoint) : WPoint :=
  ⟨p.x * cellWidth + originX, p.y * cellHeight + originY⟩

/-- `GridCoordinateConverter.convertFromGridBasis` (part_004 lines 12-20) as
an allocator. The input polygons are lists of addresses into a shared store
of grid-space point objects (several polygons may alias one object, as the
triangulation and merge stages arrange); for every polygon position the
converter allocates a fresh world point (`{x: 0, y: 0}` filled by
`grid.convertFromGridBasis`). Returns the store of allocated objects
(address = index, assigned in traversal order starting at `firstFree`) and
the polygons as address lists. -/
def convertPolysAlloc (originX originY cellWidth cellHeight : ℚ)
    (store_in : List GridPoint) :
    List (List ℕ) → ℕ → List WPoint × List (List ℕ)
  | [], _ => ([], [])
  | poly :: rest, firstFree =>
    let pts := poly.map fun ix =>
      convertFromGridBasisVal originX originY cellWidth cellHeight
        (store_in.getD ix default)
    let addrs := (List.range poly.length).map fun m => firstFree + m
    let r := convertPolysAlloc originX originY cellWidth cellHeight store_in
      rest (firstFree + poly.length)
    (pts ++ r.1, addrs :: r.2)

/-- The isometric rescale loop of `buildNavMesh` (NavMeshGenerator.ts lines
61-68): `scaledMeshField.forEach(polygon => polygon.forEach(point =>
point.y *= isometricRatio))`, acting on the store through the polygons'
point addresses (an address shared by two polygons would be scaled twice). -/
def isoScale (ratio : ℚ) (store : List WPoint) (addrs : List ℕ) :
    List WPoint :=
  addrs.foldl (fun st a =>
    st.set a ⟨(st.getD a default).x, (st.getD a default).y * ratio⟩) store

/-- The polygons `buildNavMesh` returns (NavMeshGenerator.ts lines 57-69):
convert to world space with fresh objects, rescale `y` in place when
`isometricRatio != 1`, and read each polygon back through its addresses. -/
def navMeshOutput (originX originY cellWidth cellHeight ratio : ℚ)
    (store_in : List GridPoint) (polys_in : List (List ℕ)) :
    List (List WPoint) :=
  let r := convertPolysAlloc originX originY cellWidth cellHeight store_in
    polys_in 0
  let st2 := if ratio ≠ 1 then isoScale ratio r.1 r.2.flatten else r.1
  r.2.map fun addrs => addrs.map fun a => st2.getD a default

theorem getD_set_ne_lemma {α : Type} (l : List α) (i j : ℕ) (v d : α)
    (h : i ≠ j) : (l.set i v).getD j d = l.getD j d := by
  simp [List.getD, List.getElem?_set_ne h]

theorem getD_set_self_lemma {α : Type} (l : List α) (i : ℕ) (v d : α)
    (h : i < l.length) : (l.set i v).getD i d = v := by
  simp [List.getD, List.getElem?_set_self h]

theorem convertPolysAlloc_flatten (ox oy cw ch : ℚ)
    (store_in : List GridPoint) :
    ∀ (l : List (List ℕ)) (start : ℕ),
      (convertPolysAlloc ox oy cw ch store_in l start).2.flatten =
        List.range' start
          (convertPolysAlloc ox oy cw ch store_in l start).1.length := by
  intro l
  induction l with
  | nil => intro start; rfl
  | cons poly rest ih =>
    intro start
    simp only [convertPolysAlloc, List.flatten_cons, List.length_append,
      List.length_map]
    rw [ih (start + poly.length)]
    have happ := List.range'_append start poly.length
      (convertPolysAlloc ox oy cw ch store_in rest
        (start + poly.length)).1.length 1
    rw [one_mul] at happ
    rw [← List.range'_eq_map_range, happ, Nat.add_comm]

theorem convertPolysAlloc_store (ox oy cw ch : ℚ)
    (store_in : List GridPoint) :
    ∀ (l : List (List ℕ)) (start : ℕ),
      (convertPolysAlloc ox oy cw ch store_in l start).1 =
        (l.map fun poly => poly.map fun ix =>
          convertFromGridBasisVal ox oy cw ch
            (store_in.getD ix default)).flatten := by
  intro l
  induction l with
  | nil => intro start; rfl
  | cons poly rest ih =>
    intro start
    simp only [convertPolysAlloc, List.map_cons, List.flatten_cons]
    rw [ih (start + poly.length)]

theorem isoScale_getD (ratio : ℚ) :
    ∀ (addrs : List ℕ) (store : List WPoint) (a : ℕ), addrs.Nodup →
      (isoScale ratio store addrs).getD a default =
        if a ∈ addrs ∧ a < store.length then
          ⟨(store.getD a default).x, (store.getD a default).y * ratio⟩
        else store.getD a default := by
  intro addrs
  induction addrs with
  | nil =>
    intro store a _
    rw [if_neg (by simp)]
    rfl
  | cons a0 rest ih =>
    intro store a hnd
    obtain ⟨ha0, hndr⟩ := List.nodup_cons.mp hnd
    have hstep : isoScale ratio store (a0 :: rest) =
        isoScale ratio (store.set a0
          ⟨(store.getD a0 default).x, (store.getD a0 default).y * ratio⟩)
          rest := rfl
    rw [hstep, ih _ a hndr, List.length_set]
    by_cases hmem : a ∈ rest
    · have hne : a0 ≠ a := fun he => ha0 (he ▸ hmem)
      by_cases hlen : a < store.length
      · rw [if_pos ⟨hmem, hlen⟩, if_pos ⟨List.mem_cons.mpr (Or.inr hmem), hlen⟩,
          getD_set_ne_lemma _ _ _ _ _ hne]
      · rw [if_neg (fun hc => hlen hc.2), if_neg (fun hc => hlen hc.2),
          getD_set_ne_lemma _ _ _ _ _ hne]
    · rw [if_neg (fun hc => hmem hc.1)]
      by_cases hea : a = a0
      · subst hea
        by_cases hlen : a < store.length
        · rw [if_pos ⟨List.mem_cons_self _ _, hlen⟩,
            getD_set_self_lemma _ _ _ _ hlen]
        · rw [if_neg (fun hc => hlen hc.2),
            List.set_eq_of_length_le (by omega)]
      · have hnotin : ¬(a ∈ a0 :: rest ∧ a < store.length) := by
          rintro ⟨hc, -⟩
          rcases List.mem_cons.mp hc with h | h
          · exact hea h
          · exact hmem h
        rw [if_neg hnotin, getD_set_ne_lemma _ _ _ _ _ (fun he => hea he.symm)]

theorem convertPolysAlloc_readback (ox oy cw ch : ℚ)
    (store_in : List GridPoint) (G : WPoint → WPoint) :
    ∀ (l : List (List ℕ)) (start : ℕ) (st2 : List WPoint),
      (∀ m, m < (convertPolysAlloc ox oy cw ch store_in l start).1.length →
        st2.getD (start + m) default =
          G ((convertPolysAlloc ox oy cw ch store_in l start).1.getD m
            default)) →
      ((convertPolysAlloc ox oy cw ch store_in l start).2.map fun addrs =>
          addrs.map fun a => st2.getD a default) =
        l.map fun poly => poly.map fun ix =>
          G (convertFromGridBasisVal ox oy cw ch
            (store_in.getD ix default)) := by
  intro l
  induction l with
  | nil => intro start st2 _; rfl
  | cons poly rest ih =>
    intro start st2 hst
    simp only [convertPolysAlloc, List.map_cons]
    congr 1
    · rw [List.map_map]
      apply List.ext_getElem (by simp)
      intro m hm1 hm2
      have hmlen : m < poly.length := by simpa using hm2
      have hmtot : m <
          (convertPolysAlloc ox oy cw ch store_in (poly :: rest)
            start).1.length := by
        simp only [convertPolysAlloc, List.length_append, List.length_map]
        omega
      have h1 := hst m hmtot
      simp only [convertPolysAlloc] at h1
      rw [List.getD_append (poly.map fun ix =>
        convertFromGridBasisVal ox oy cw ch (store_in.getD ix default))
        _ _ m (by simp only [List.length_map]; omega)] at h1
      rw [List.getD_eq_getElem (poly.map fun ix =>
        convertFromGridBasisVal ox oy cw ch (store_in.getD ix default))
        _ (by simp only [List.length_map]; omega)] at h1
      simp only [List.getElem_map, List.getElem_range, Function.comp] at h1 ⊢
      exact h1
    · apply ih (start + poly.length) st2
      intro m hm
      have h1 := hst (poly.length + m) (by
        simp only [convertPolysAlloc, List.length_append, List.length_map]
        omega)
      simp only [convertPolysAlloc] at h1
      rw [List.getD_append_right (poly.map fun ix =>
        convertFromGridBasisVal ox oy cw ch (store_in.getD ix default))
        _ _ (poly.length + m) (by simp only [List.length_map]; omega)] at h1
      simp only [List.length_map] at h1
      rw [show poly.length + m - poly.length = m from by omega] at h1
      rw [show start + (poly.length + m) = start + poly.length + m from by
        omega] at h1
      exact h1

/-- C10: in the allocation model of
`GridCoordinateConverter.convertFromGridBasis` plus the isometric rescale
of `buildNavMesh`: (1) the converter's output point objects are fresh and
pairwise distinct - the allocated addresses are exactly `0, 1, ..., n-1`
in traversal order, one per output position, so no point object is shared
between output positions (nor with the input points, which live in a
separate store), and mutating one output polygon's point can never change
another; (2) consequently the in-place `point.y *= isometricRatio` pass
multiplies each output coordinate exactly once even when the input
polygons share point objects, and the returned polygons are the input
polygons with each grid point converted and y-scaled exactly once - also
for `isometricRatio = 1`, where the rescale loop is skipped and
`y * 1 = y`. -/
theorem c10_fresh_points_scaled_once (ox oy cw ch ratio : ℚ)
    (store_in : List GridPoint) (polys_in : List (List ℕ)) :
    (convertPolysAlloc ox oy cw ch store_in polys_in 0).2.flatten =
      List.range
        (convertPolysAlloc ox oy cw ch store_in polys_in 0).1.length ∧
      navMeshOutput ox oy cw ch ratio store_in polys_in =
        polys_in.map fun poly => poly.map fun ix =>
          ⟨(store_in.getD ix default).x * cw + ox,
            ((store_in.getD ix default).y * ch + oy) * ratio⟩ := by
  constructor
  · rw [convertPolysAlloc_flatten, List.range_eq_range']
  · simp only [navMeshOutput]
    by_cases hr : ratio = 1
    · rw [if_neg (fun h => h hr)]
      have hrb := convertPolysAlloc_readback ox oy cw ch store_in
        (fun p => p) polys_in 0
        (convertPolysAlloc ox oy cw ch store_in polys_in 0).1
        (fun m hm => by rw [Nat.zero_add])
      rw [hrb]
      subst hr
      simp [convertFromGridBasisVal, mul_one]
    · rw [if_pos hr]
      have hrb := convertPolysAlloc_readback ox oy cw ch store_in
        (fun p => ⟨p.x, p.y * ratio⟩) polys_in 0
        (isoScale ratio (convertPolysAlloc ox oy cw ch store_in polys_in 0).1
          (convertPolysAlloc ox oy cw ch store_in polys_in 0).2.flatten)
        ?hst
      · rw [hrb]
        simp [convertFromGridBasisVal]
      case hst =>
        intro m hm
        rw [Nat.zero_add, convertPolysAlloc_flatten, ← List.range_eq_range']
        rw [isoScale_getD ratio
          (List.range
            (convertPolysAlloc ox oy cw ch store_in polys_in 0).1.length)
          (convertPolysAlloc ox oy cw ch store_in polys_in 0).1 m
          (List.nodup_range _)]
        rw [if_pos ⟨List.mem_range.mpr hm, hm⟩]
